import Mathlib

/-!
Verification of the azure_table SQL shim (crates/azure_table/src/sql.rs and
crates/azure_table/src/sql/exec.rs): a shallow embedding of the read-query
compiler, the write-statement compiler, the entity marshaller/unmarshaller,
and the request authenticator, together with theorems settling the spec
claims about them.

Modelling conventions:
- Rust strings are Lean `String`s; all source operations (uppercasing, substring
  search, splitting, slicing, replacement) are re-implemented over `List Char`
  so that every definition is structurally recursive and kernel-executable.
  The statement dialect is ASCII, so byte positions coincide with char
  positions and ASCII uppercasing coincides with Rust `to_uppercase`.
- Machine integers are `Int`/`Nat` with explicit range checks where the source
  checks ranges (`i32::try_from`, the `u64 > i64::MAX` test, `u32`/`usize`
  parsing bounds).
- `f32`/`f64` values are abstract bit-pattern surrogates (`F32`, `F64`): the
  source never computes with floats, it only passes them through, widens
  `f32` to `f64` (injective, modelled by an embedding) and renders them with
  `to_string` (modelled by a surrogate rendering). Non-finite floats, which
  `serde_json` would map to JSON null, are outside the model.
- JSON values follow `serde_json::Value`; a JSON object is modelled as its
  list of key/value insertions (the source `serde_json::Map` keeps keys
  unique and sorted, which no claim depends on), and `Number` as either an
  integer or a float surrogate, with `as_i64`/`as_f64`/`is_f64` as in serde.
- Fallible Rust functions returning `anyhow::Result` become `Except Err`,
  with one `Err` constructor per distinct `bail!`/error site of the source.
-/

namespace AzTable

/-- Error type: one constructor per distinct error site of the source. -/
inductive Err where
  | joinClause : Err
  | orderByClause : Err
  | unsupportedParameterType : Err
  | malformedTop (tok : String) : Err
  | unsupportedStatement : Err
  | missingValuesKeyword : Err
  | missingColumnParens : Err
  | missingValuesParens : Err
  | malformedValue (found : String) : Err
  | columnValueMismatch (cols vals : Nat) : Err
  | paramOutOfRange (idx total : Nat) : Err
  | malformedSetPair : Err
  | setValueNotPlaceholder : Err
  | missingSetClause : Err
  | missingWhereClause (qt : String) : Err
  | emptyWhere : Err
  | emptyWhereFields (qt : String) : Err
  | unsupportedPredicate (qt : String) : Err
  | missingKeyField (qt key : String) : Err
  | invalidKeyType (key : String) : Err
  | numericOverflow (n : Nat) : Err
  | int32OutOfRange (n : Int) : Err
  | unsupportedDataType (dt : String) : Err
  | invalidEncoding : Err
  | invalidKey : Err
  deriving DecidableEq, Repr

/-- Opaque surrogate for an `f32` value (its IEEE-754 bit pattern). -/
structure F32 where
  bits : Nat
  deriving DecidableEq, Repr

/-- Opaque surrogate for an `f64` value (its IEEE-754 bit pattern). -/
structure F64 where
  bits : Nat
  deriving DecidableEq, Repr

/-- Model of `f64::from(x : f32)`: the exact IEEE widening, injective; modelled by the
identity on the surrogate bit pattern. -/
def f32ToF64 (x : F32) : F64 := ⟨x.bits⟩

/-- Surrogate for Rust `to_string` on `f32` (deterministic, injective). -/
def f32Repr (x : F32) : String := "f32bits" ++ toString x.bits

/-- Surrogate for Rust `to_string` on `f64` (deterministic, injective). -/
def f64Repr (x : F64) : String := "f64bits" ++ toString x.bits

/-- Model of `qwasr_wasi_sql::DataType`: the tagged value model, each variant
independently nullable, exactly the twelve variants used by the source. -/
inductive DataType where
  | int32 (v : Option Int) : DataType
  | int64 (v : Option Int) : DataType
  | uint32 (v : Option Nat) : DataType
  | uint64 (v : Option Nat) : DataType
  | float (v : Option F32) : DataType
  | double (v : Option F64) : DataType
  | str (v : Option String) : DataType
  | boolean (v : Option Bool) : DataType
  | date (v : Option String) : DataType
  | time (v : Option String) : DataType
  | timestamp (v : Option String) : DataType
  | binary (v : Option (List Nat)) : DataType
  deriving DecidableEq, Repr

/-- Model of `qwasr_wasi_sql::Field`: a named value. -/
structure Field where
  name : String
  value : DataType
  deriving DecidableEq, Repr

/-- Model of `qwasr_wasi_sql::Row`: a row index and its field list. -/
structure Row where
  index : String
  fields : List Field
  deriving DecidableEq, Repr

/-! ## String utilities (models of the Rust `str` operations used) -/

/-- ASCII uppercase of one char, as Rust `to_uppercase` acts on ASCII. -/
def upChar (c : Char) : Char :=
  if 97 ≤ c.toNat ∧ c.toNat ≤ 122 then Char.ofNat (c.toNat - 32) else c

/-- Rust `str::to_uppercase` (ASCII fragment). -/
def upperStr (s : String) : String := String.mk (s.data.map upChar)

/-- ASCII whitespace test, as used by Rust `trim`/`split_whitespace`. -/
def isWsChar (c : Char) : Bool := c = ' ' ∨ c = '\t' ∨ c = '\n' ∨ c = '\r'

/-- Rust `str::trim` on char lists. -/
def trimList (s : List Char) : List Char :=
  ((s.dropWhile isWsChar).reverse.dropWhile isWsChar).reverse

/-- Rust `str::trim`. -/
def trimStr (s : String) : String := String.mk (trimList s.data)

/-- First index (in chars) of `pat` in `s`, Rust `str::find`. -/
def findSubList (pat : List Char) : List Char → Option Nat
  | [] => if pat.isEmpty then some 0 else none
  | c :: rest =>
    if pat.isPrefixOf (c :: rest) then some 0
    else (findSubList pat rest).map (· + 1)

/-- Rust `str::find` for a substring pattern. -/
def findSub (s pat : String) : Option Nat := findSubList pat.data s.data

/-- Rust `str::contains` for a substring pattern. -/
def containsSub (s pat : String) : Bool := (findSub s pat).isSome

/-- Index of the first occurrence of char `c`, Rust `str::find(char)`. -/
def findCharList (c : Char) : List Char → Option Nat
  | [] => none
  | d :: rest => if d = c then some 0 else (findCharList c rest).map (· + 1)

/-- Index of the last occurrence of char `c`, Rust `str::rfind(char)`. -/
def rfindCharList (c : Char) (s : List Char) : Option Nat :=
  (findCharList c s.reverse).map (fun i => s.length - 1 - i)

/-- Model of `&s[a..b]` in chars. The source can panic when `a > b`; the model returns
the empty string there (no claim reaches that case). -/
def sliceList (s : List Char) (a b : Nat) : List Char := (s.take b).drop a

/-- Model of `&s[a..b]` on strings. -/
def sliceStr (s : String) (a b : Nat) : String := String.mk (sliceList s.data a b)

/-- Split on a single separator char, keeping empty pieces: Rust
`str::split(c)`. -/
def splitCharAux (c : Char) : List Char → List Char → List (List Char)
  | [], cur => [cur.reverse]
  | d :: rest, cur =>
    if d = c then cur.reverse :: splitCharAux c rest []
    else splitCharAux c rest (d :: cur)

/-- Rust `str::split(c)` as strings. -/
def splitChar (s : String) (c : Char) : List String :=
  (splitCharAux c s.data []).map String.mk

/-- Split on a multi-char separator, keeping empty pieces: Rust
`str::split(sep)`. Fuel-driven; the top level supplies enough fuel. -/
def splitOnAux (sep : List Char) : Nat → List Char → List Char → List (List Char)
  | _, [], cur => [cur.reverse]
  | 0, s, cur => [cur.reverse ++ s]
  | fuel + 1, c :: rest, cur =>
    if sep ≠ [] ∧ sep.isPrefixOf (c :: rest) then
      cur.reverse :: splitOnAux sep fuel (List.drop sep.length (c :: rest)) []
    else
      splitOnAux sep fuel rest (c :: cur)

/-- Rust `str::split(sep)` for a string separator. -/
def splitOnStr (s sep : String) : List String :=
  (splitOnAux sep.data (s.data.length + 1) s.data []).map String.mk

/-- Rust `str::split_whitespace`: split on whitespace runs, no empty pieces. -/
def splitWs (s : String) : List String :=
  ((splitCharAux ' ' ((s.data.map (fun c => if isWsChar c then ' ' else c))) []).filter
    (· ≠ [])).map String.mk

/-- Replace every non-overlapping occurrence of `pat` (left to right) by
`rep`: Rust `str::replace`. Fuel-driven; the top level supplies enough. -/
def replaceAllAux (pat rep : List Char) : Nat → List Char → List Char
  | _, [] => []
  | 0, s => s
  | fuel + 1, c :: rest =>
    if pat ≠ [] ∧ pat.isPrefixOf (c :: rest) then
      rep ++ replaceAllAux pat rep fuel (List.drop pat.length (c :: rest))
    else
      c :: replaceAllAux pat rep fuel rest

/-- Rust `str::replace` on strings. -/
def replaceAll (s pat rep : String) : String :=
  String.mk (replaceAllAux pat.data rep.data (s.data.length + 1) s.data)

/-- Model of `Vec::join(sep)`. -/
def joinSep (sep : String) : List String → String
  | [] => ""
  | [x] => x
  | x :: rest => x ++ sep ++ joinSep sep rest

/-- Rust `str::trim_end_matches(',')`: strip all trailing commas. -/
def trimEndCommas (s : String) : String :=
  String.mk (s.data.reverse.dropWhile (· = ',') |>.reverse)

/-- Decimal digits of a char, if any. -/
def digitVal (c : Char) : Option Nat :=
  if 48 ≤ c.toNat ∧ c.toNat ≤ 57 then some (c.toNat - 48) else none

/-- Parse a list of decimal digits (at least one) into a Nat. -/
def parseDigits : List Char → Option Nat
  | [] => none
  | cs => go cs 0
where
  go : List Char → Nat → Option Nat
    | [], acc => some acc
    | c :: rest, acc =>
      match digitVal c with
      | some d => go rest (acc * 10 + d)
      | none => none

/-- Rust unsigned integer `FromStr`: an optional leading `+`, then one or
more decimal digits, bounded by the maximum of the type. -/
def parseUIntBounded (maxVal : Nat) (s : String) : Option Nat :=
  let cs := match s.data with
    | '+' :: rest => rest
    | other => other
  match parseDigits cs with
  | some n => if n ≤ maxVal then some n else none
  | none => none

/-- Rust `str::parse::<u32>()`. -/
def parseU32 (s : String) : Option Nat := parseUIntBounded (2 ^ 32 - 1) s

/-- Rust `str::parse::<usize>()` (64-bit platform). -/
def parseUsize (s : String) : Option Nat := parseUIntBounded (2 ^ 64 - 1) s

/-! ## Base64 (base64ct `Base64`: standard alphabet, padded, strict) -/

/-- The standard base64 alphabet at index `n < 64`. -/
def b64EncChar (n : Nat) : Char :=
  if n < 26 then Char.ofNat (65 + n)
  else if n < 52 then Char.ofNat (97 + (n - 26))
  else if n < 62 then Char.ofNat (48 + (n - 52))
  else if n = 62 then Char.ofNat 43
  else Char.ofNat 47

/-- Inverse of the standard base64 alphabet. -/
def b64DecChar (c : Char) : Option Nat :=
  let n := c.toNat
  if 65 ≤ n ∧ n ≤ 90 then some (n - 65)
  else if 97 ≤ n ∧ n ≤ 122 then some (n - 97 + 26)
  else if 48 ≤ n ∧ n ≤ 57 then some (n - 48 + 52)
  else if n = 43 then some 62
  else if n = 47 then some 63
  else none

/-- Model of `Base64::encode_string` over bytes, producing the padded char stream. -/
def b64EncodeList : List Nat → List Char
  | [] => []
  | [a] => [b64EncChar (a / 4), b64EncChar (a % 4 * 16), '=', '=']
  | [a, b] => [b64EncChar (a / 4), b64EncChar (a % 4 * 16 + b / 16),
               b64EncChar (b % 16 * 4), '=']
  | a :: b :: c :: rest =>
    b64EncChar (a / 4) :: b64EncChar (a % 4 * 16 + b / 16) ::
    b64EncChar (b % 16 * 4 + c / 64) :: b64EncChar (c % 64) :: b64EncodeList rest

/-- Model of `Base64::encode_string`. -/
def b64Encode (bs : List Nat) : String := String.mk (b64EncodeList bs)

/-- Model of `Base64::decode_vec` (strict: padded groups of four, canonical trailing
bits, no stray chars). -/
def b64DecodeList : List Char → Option (List Nat)
  | [] => some []
  | c1 :: c2 :: c3 :: c4 :: rest =>
    match b64DecChar c1, b64DecChar c2 with
    | some x1, some x2 =>
      if c3 = '=' then
        if c4 = '=' ∧ rest = [] ∧ x2 % 16 = 0 then some [x1 * 4 + x2 / 16] else none
      else
        match b64DecChar c3 with
        | some x3 =>
          if c4 = '=' then
            if rest = [] ∧ x3 % 4 = 0 then
              some [x1 * 4 + x2 / 16, x2 % 16 * 16 + x3 / 4]
            else none
          else
            match b64DecChar c4 with
            | some x4 =>
              (b64DecodeList rest).map
                (fun tl => (x1 * 4 + x2 / 16) :: (x2 % 16 * 16 + x3 / 4) ::
                           (x3 % 4 * 64 + x4) :: tl)
            | none => none
        | none => none
    | _, _ => none
  | _ => none

/-- Model of `Base64::decode_vec`. -/
def b64Decode (s : String) : Option (List Nat) := b64DecodeList s.data

/-! ## JSON model (`serde_json::Value` fragment used by the source) -/

/-- Model of `serde_json::Number`: an integer or a float (surrogate). Non-finite
floats, which `Number::from_f64` rejects, are outside the model. -/
inductive JNumber where
  | ofInt (n : Int) : JNumber
  | ofFloat (x : F64) : JNumber
  deriving DecidableEq, Repr

/-- Model of `Number::is_f64`. -/
def JNumber.isF64 : JNumber → Bool
  | .ofInt _ => false
  | .ofFloat _ => true

/-- Model of `serde_json::Value`. -/
inductive JValue where
  | null : JValue
  | bool (b : Bool) : JValue
  | num (n : JNumber) : JValue
  | str (s : String) : JValue
  | arr (xs : List JValue) : JValue
  | obj (kvs : List (String × JValue)) : JValue

/-- Model of `Value::as_str`. -/
def jAsStr : JValue → Option String
  | .str s => some s
  | _ => none

/-- Model of `Value::as_bool`. -/
def jAsBool : JValue → Option Bool
  | .bool b => some b
  | _ => none

/-- Model of `Value::as_i64`: integers in signed 64-bit range only. -/
def jAsI64 : JValue → Option Int
  | .num (.ofInt n) => if -(2 ^ 63) ≤ n ∧ n < 2 ^ 63 then some n else none
  | _ => none

/-- Surrogate for the exact Rust `i64 as f64` cast (only reached on integer
JSON numbers converted as `Edm.Double`, which no claim exercises). -/
def intToF64 (n : Int) : F64 := ⟨(2 ^ 64 + n).toNat⟩

/-- Model of `Value::as_f64`: any JSON number (serde casts integers). -/
def jAsF64 : JValue → Option F64
  | .num (.ofFloat x) => some x
  | .num (.ofInt n) => some (intToF64 n)
  | _ => none

/-- Model of `Value::as_array`. -/
def jAsArr : JValue → Option (List JValue)
  | .arr xs => some xs
  | _ => none

/-- First-match association lookup, the model of `Map::get` (the source
maps have unique keys). -/
def jLookup (kvs : List (String × JValue)) (k : String) : Option JValue :=
  match kvs with
  | [] => none
  | (k2, v) :: rest => if k2 = k then some v else jLookup rest k

/-- Model of `Value::get` on an object. -/
def jGet (v : JValue) (k : String) : Option JValue :=
  match v with
  | .obj kvs => jLookup kvs k
  | _ => none

/-! ## Entity marshaller (sql/exec.rs: `ExecPhrase::entity_to_json`) -/

/-- The key/value insertions `entity_to_json` performs for one field
(sql/exec.rs lines 331-422), in order. -/
def marshalField (f : Field) : Except Err (List (String × JValue)) :=
  match f.value with
  | .binary (some data) =>
    .ok [(f.name, .str (b64Encode data)),
         (f.name ++ "@odata.type", .str "Edm.Binary")]
  | .binary none => .ok []
  | .boolean (some b) => .ok [(f.name, .bool b)]
  | .boolean none => .ok []
  | .int32 (some n) => .ok [(f.name, .num (.ofInt n))]
  | .int32 none => .ok []
  | .int64 (some n) =>
    .ok [(f.name, .num (.ofInt n)),
         (f.name ++ "@odata.type", .str "Edm.Int64")]
  | .int64 none => .ok []
  | .uint32 (some n) =>
    .ok [(f.name, .num (.ofInt n)),
         (f.name ++ "@odata.type", .str "Edm.Int64")]
  | .uint32 none => .ok []
  | .uint64 (some n) =>
    if 2 ^ 63 - 1 < n then .error (.numericOverflow n)
    else
      .ok [(f.name, .num (.ofInt n)),
           (f.name ++ "@odata.type", .str "Edm.Int64")]
  | .uint64 none => .ok []
  | .float (some x) =>
    .ok [(f.name, .num (.ofFloat (f32ToF64 x))),
         (f.name ++ "@odata.type", .str "Edm.Double")]
  | .float none => .ok []
  | .double (some x) => .ok [(f.name, .num (.ofFloat x))]
  | .double none => .ok []
  | .str (some s) => .ok [(f.name, .str s)]
  | .str none => .ok []
  | .date (some s) =>
    .ok [(f.name, .str s), (f.name ++ "@odata.type", .str "Edm.DateTime")]
  | .date none => .ok []
  | .time (some s) =>
    .ok [(f.name, .str s), (f.name ++ "@odata.type", .str "Edm.DateTime")]
  | .time none => .ok []
  | .timestamp (some s) =>
    .ok [(f.name, .str s), (f.name ++ "@odata.type", .str "Edm.DateTime")]
  | .timestamp none => .ok []

/-- All insertions for an entity, in field order. -/
def marshalEntity : List Field → Except Err (List (String × JValue))
  | [] => .ok []
  | f :: rest =>
    match marshalField f with
    | .error e => .error e
    | .ok out =>
      match marshalEntity rest with
      | .error e => .error e
      | .ok outs => .ok (out ++ outs)

/-- Model of `ExecPhrase::entity_to_json`: `None` for an empty entity, otherwise the
wire object (modelled as its insertion sequence). -/
def entityToJson (entity : List Field) : Except Err (Option (List (String × JValue))) :=
  if entity.isEmpty then .ok none
  else
    match marshalEntity entity with
    | .error e => .error e
    | .ok kvs => .ok (some kvs)

/-! ## Entity unmarshaller (sql.rs: `infer_data_type`, `convert`, `parse`) -/

/-- Model of `infer_data_type` (sql.rs lines 92-104). -/
def inferDataType (v : JValue) : String :=
  match v with
  | .bool _ => "Edm.Boolean"
  | .num n => if n.isF64 then "Edm.Double" else "Edm.Int32"
  | _ => "Edm.String"

/-- Model of `convert` (sql.rs lines 154-190). -/
def convert (v : JValue) (dataType : String) : Except Err DataType :=
  match dataType with
  | "Edm.Binary" =>
    match jAsStr v with
    | some s =>
      match b64Decode s with
      | some decoded => .ok (.binary (some decoded))
      | none => .error .invalidEncoding
    | none => .ok (.binary none)
  | "Edm.Boolean" =>
    match jAsBool v with
    | some b => .ok (.boolean (some b))
    | none => .ok (.boolean none)
  | "Edm.DateTime" =>
    match jAsStr v with
    | some s => .ok (.timestamp (some s))
    | none => .ok (.timestamp none)
  | "Edm.Double" =>
    match jAsF64 v with
    | some x => .ok (.double (some x))
    | none => .ok (.double none)
  | "Edm.String" => 
    match jAsStr v with
    | some s => .ok (.str (some s))
    | none => .ok (.str none)
  | "Edm.Guid" =>
    match jAsStr v with
    | some s => .ok (.str (some s))
    | none => .ok (.str none)
  | "Edm.Int32" =>
    match jAsI64 v with
    | some n =>
      if -(2 ^ 31) ≤ n ∧ n < 2 ^ 31 then .ok (.int32 (some n))
      else .error (.int32OutOfRange n)
    | none => .ok (.int32 none)
  | "Edm.Int64" =>
    match jAsI64 v with
    | some n => .ok (.int64 (some n))
    | none => .ok (.int64 none)
  | other => .error (.unsupportedDataType other)

/-- The read-path conversion of one named field out of a wire object
(sql.rs lines 135-145): resolve the sibling type tag, falling back to
JSON-shape inference, then `convert`. `none` when the field is absent. -/
def readBack (kvs : List (String × JValue)) (nm : String) : Option (Except Err DataType) :=
  (jLookup kvs nm).map (fun v =>
    let dataType :=
      match (jLookup kvs (nm ++ "@odata.type")).bind jAsStr with
      | some t => t
      | none => inferDataType v
    convert v dataType)

/-- Marshal one field and convert it back, the round-trip of claim C1:
`some` of the reproduced value when both directions succeed. -/
def roundTripField (f : Field) : Option DataType :=
  match marshalField f with
  | .error _ => none
  | .ok kvs =>
    match readBack kvs f.name with
    | some (.ok d) => some d
    | _ => none

/-- Rust `str::starts_with`. -/
def strStartsWith (s pre : String) : Bool := pre.data.isPrefixOf s.data

/-- Rust `str::ends_with`. -/
def strEndsWith (s suf : String) : Bool := suf.data.isSuffixOf s.data

/-- One row out of one entity object: the loop body of `parse`
(sql.rs lines 112-147), folding the key/value pairs of the object in order with
the running row index and (reversed) field accumulator. -/
def rowOfPairs (obj : List (String × JValue)) :
    List (String × JValue) → String → List Field → Except Err Row
  | [], index, fields => .ok ⟨index, fields.reverse⟩
  | (k, v) :: rest, index, fields =>
    if strStartsWith k "odata." then rowOfPairs obj rest index fields
    else if k = "RowKey" then
      match jAsStr v with
      | some s => rowOfPairs obj rest s fields
      | none => rowOfPairs obj rest index fields
    else if k = "PartitionKey" ∨ k = "Timestamp" then rowOfPairs obj rest index fields
    else if strEndsWith k "@odata.type" then rowOfPairs obj rest index fields
    else
      let dataType :=
        match (jLookup obj (k ++ "@odata.type")).bind jAsStr with
        | some t => t
        | none => inferDataType v
      match convert v dataType with
      | .error e => .error e
      | .ok value => rowOfPairs obj rest index (⟨k, value⟩ :: fields)

/-- One row per element of the `value` array; non-object elements yield an
empty row, as in the source (`entry.as_object()` guard). -/
def entryToRow (entry : JValue) : Except Err Row :=
  match entry with
  | .obj kvs => rowOfPairs kvs kvs "" []
  | _ => .ok ⟨"", []⟩

/-- The row list built from the entries of the envelope, failing at the first
converting error, as the source `?` does. -/
def rowsOfEntries : List JValue → Except Err (List Row)
  | [] => .ok []
  | e :: rest =>
    match entryToRow e with
    | .error err => .error err
    | .ok r =>
      match rowsOfEntries rest with
      | .error err => .error err
      | .ok rs => .ok (r :: rs)

/-- Model of `parse` (sql.rs lines 106-152): rows from the response envelope; an
absent or non-array `value` member yields the empty row list. -/
def parseRows (v : JValue) : Except Err (List Row) :=
  match (jGet v "value").bind jAsArr with
  | none => .ok []
  | some entries => rowsOfEntries entries

/-! ## Read-query compiler (sql.rs: `QueryPhrases`) -/

/-- Model of `QueryPhrases` (sql.rs lines 192-197); `top` is the parsed `u32`. -/
structure QueryPhrases where
  select : Option String
  filter : Option String
  top : Option Nat
  deriving DecidableEq, Repr

/-- The serialized literal one parameter substitutes to, per variant
(sql.rs lines 322-359); `Binary` is the one failing case. -/
def serializeParam : DataType → Except Err String
  | .int32 v =>
    .ok (match v with | some n => toString n | none => "NULL")
  | .int64 v =>
    .ok (match v with | some n => toString n | none => "NULL")
  | .uint32 v =>
    .ok (match v with | some n => toString n | none => "NULL")
  | .uint64 v =>
    .ok (match v with | some n => toString n | none => "NULL")
  | .float v =>
    .ok (match v with | some x => f32Repr x | none => "NULL")
  | .double v =>
    .ok (match v with | some x => f64Repr x | none => "NULL")
  | .str v =>
    .ok (match v with
      | some s =>
        String.mk [Char.ofNat 39] ++
          replaceAll s (String.mk [Char.ofNat 39]) (String.mk [Char.ofNat 39, Char.ofNat 39]) ++
          String.mk [Char.ofNat 39]
      | none => "NULL")
  | .boolean v =>
    .ok (match v with | some b => if b then "true" else "false" | none => "NULL")
  | .date v =>
    .ok (match v with
      | some s => String.mk [Char.ofNat 39] ++ s ++ String.mk [Char.ofNat 39]
      | none => "NULL")
  | .time v =>
    .ok (match v with
      | some s => String.mk [Char.ofNat 39] ++ s ++ String.mk [Char.ofNat 39]
      | none => "NULL")
  | .timestamp v =>
    .ok (match v with
      | some s => String.mk [Char.ofNat 39] ++ s ++ String.mk [Char.ofNat 39]
      | none => "NULL")
  | .binary _ => .error .unsupportedParameterType

/-- The enumerated substitution loop of `substitute_params`
(sql.rs lines 318-363), `i` the 0-based position of the head of `ps`. -/
def substituteParamsAux (i : Nat) (acc : String) : List DataType → Except Err String
  | [] => .ok acc
  | p :: rest =>
    match serializeParam p with
    | .error e => .error e
    | .ok value =>
      substituteParamsAux (i + 1) (replaceAll acc ("$" ++ toString (i + 1)) value) rest

/-- Model of `QueryPhrases::substitute_params`. -/
def substituteParams (query : String) (params : List DataType) : Except Err String :=
  substituteParamsAux 0 query params

/-- The token scan of `QueryPhrases::query` (sql.rs lines 218-277): a
while-loop over whitespace tokens with mutable select/filter/top, modelled
with fuel (each iteration consumes at least one token, so `tokens.length`
fuel suffices; the top level supplies more). -/
def scanTokens : Nat → List String → Option String → Option String → Option Nat →
    Except Err (Option String × Option String × Option Nat)
  | _, [], sel, fil, top => .ok (sel, fil, top)
  | 0, _, sel, fil, top => .ok (sel, fil, top)
  | fuel + 1, tok :: rest, sel, fil, top =>
    if upperStr tok = "SELECT" then
      match rest with
      | nxt :: rest2 =>
        if upperStr nxt = "TOP" then
          match rest2 with
          | numTok :: rest3 =>
            match parseU32 numTok with
            | none => .error (.malformedTop numTok)
            | some n =>
              let items := rest3.takeWhile (fun t => upperStr t ≠ "FROM")
              let rest4 := rest3.dropWhile (fun t => upperStr t ≠ "FROM")
              let sel2 := if items.isEmpty then sel
                else some (trimEndCommas (joinSep " " items))
              scanTokens fuel rest4 sel2 fil (some n)
          | [] => scanTokens fuel [] sel fil top
        else
          let items := rest.takeWhile (fun t => upperStr t ≠ "FROM")
          let rest4 := rest.dropWhile (fun t => upperStr t ≠ "FROM")
          let sel2 := if items.isEmpty then sel
            else some (trimEndCommas (joinSep " " items))
          scanTokens fuel rest4 sel2 fil top
      | [] => .ok (sel, fil, top)
    else if upperStr tok = "FROM" then
      match rest with
      | _ :: rest2 => scanTokens fuel rest2 sel fil top
      | [] => .ok (sel, fil, top)
    else if upperStr tok = "WHERE" then
      let parts := rest.takeWhile (fun t => upperStr t ≠ "ORDER" ∧ upperStr t ≠ "JOIN")
      let rest4 := rest.dropWhile (fun t => upperStr t ≠ "ORDER" ∧ upperStr t ≠ "JOIN")
      let fil2 := if parts.isEmpty then fil else some (joinSep " " parts)
      scanTokens fuel rest4 sel fil2 top
    else
      scanTokens fuel rest sel fil top

/-- Model of `QueryPhrases::query` (sql.rs lines 200-280). -/
def QueryPhrases.query (query : String) (params : List DataType) :
    Except Err QueryPhrases :=
  let queryUpper := upperStr query
  if containsSub queryUpper "JOIN" then .error .joinClause
  else if containsSub queryUpper "ORDER BY" then .error .orderByClause
  else
    match substituteParams query params with
    | .error e => .error e
    | .ok processed =>
      let parts := splitWs processed
      match scanTokens (parts.length + 1) parts none none none with
      | .error e => .error e
      | .ok (sel, fil, top) => .ok ⟨sel, fil, top⟩

/-! ## OData rendering (sql.rs: `QueryPhrases::odata`) -/

/-- One byte of the UTF-8 encoding of a char, as `urlencoding` sees it. -/
def utf8Bytes (c : Char) : List Nat :=
  let n := c.toNat
  if n < 128 then [n]
  else if n < 2048 then [192 + n / 64, 128 + n % 64]
  else if n < 65536 then [224 + n / 4096, 128 + n / 64 % 64, 128 + n % 64]
  else [240 + n / 262144, 128 + n / 4096 % 64, 128 + n / 64 % 64, 128 + n % 64]

/-- A byte that `urlencoding::encode` leaves bare: ASCII alphanumerics and
`-`, `.`, `_`, `~`. -/
def isUrlSafe (n : Nat) : Bool :=
  (48 ≤ n ∧ n ≤ 57) ∨ (65 ≤ n ∧ n ≤ 90) ∨ (97 ≤ n ∧ n ≤ 122) ∨
    n = 45 ∨ n = 46 ∨ n = 95 ∨ n = 126

/-- Uppercase hex digit. -/
def hexDigit (n : Nat) : Char :=
  if n < 10 then Char.ofNat (48 + n) else Char.ofNat (55 + n)

/-- Percent-encode one byte. -/
def pctByte (n : Nat) : List Char :=
  if isUrlSafe n then [Char.ofNat n] else ['%', hexDigit (n / 16), hexDigit (n % 16)]

/-- Model of `urlencoding::encode`. -/
def urlencode (s : String) : String :=
  String.mk ((s.data.flatMap utf8Bytes).flatMap pctByte)

/-- The operator translation of `QueryPhrases::odata` (sql.rs lines
295-305): sequential replacement of space-surrounded occurrences. -/
def odataOpFix (filter : String) : String :=
  replaceAll (replaceAll (replaceAll (replaceAll (replaceAll (replaceAll
    (replaceAll (replaceAll (replaceAll (replaceAll filter
      " = " " eq ") " != " " ne ") " <> " " ne ") " > " " gt ") " >= " " ge ")
      " < " " lt ") " <= " " le ") " AND " " and ") " OR " " or ") " NOT " " not "

/-- Model of `QueryPhrases::odata` (sql.rs lines 282-316). -/
def QueryPhrases.odata (p : QueryPhrases) : String :=
  let clauses1 : List String :=
    match p.select with
    | some select => if select ≠ "*" then ["$select=" ++ urlencode select] else []
    | none => []
  let clauses2 : List String :=
    match p.filter with
    | some filter => clauses1 ++ ["$filter=" ++ urlencode (odataOpFix filter)]
    | none => clauses1
  let clauses3 : List String :=
    match p.top with
    | some top => clauses2 ++ ["$top=" ++ toString top]
    | none => clauses2
  joinSep "&" clauses3

/-! ## Write-statement compiler (sql/exec.rs: `ExecPhrase`) -/

/-- Model of `ExecAction` (sql/exec.rs lines 9-14). -/
inductive ExecAction where
  | insert : ExecAction
  | update : ExecAction
  | delete : ExecAction
  deriving DecidableEq, Repr

/-- Model of `ExecPhrase` (sql/exec.rs lines 16-22). -/
structure ExecPhrase where
  action : ExecAction
  partition : String
  row : String
  entity : List Field
  deriving DecidableEq, Repr

/-- Model of `ExecPhrase::parse_param_placeholder` (sql/exec.rs lines 239-244):
`$N` to the 0-based index `N - 1`; `$0` yields `none` via `checked_sub`. -/
def parseParamPlaceholder (s : String) : Option Nat :=
  match s.data with
  | '$' :: numStr =>
    match parseUsize (String.mk numStr) with
    | some n => if n = 0 then none else some (n - 1)
    | none => none
  | _ => none

/-- Model of `ExecPhrase::extract_columns` (sql/exec.rs lines 197-210). -/
def extractColumns (insertPart : String) : Except Err (List String) :=
  match findCharList '(' insertPart.data with
  | none => .error .missingColumnParens
  | some openParen =>
    match rfindCharList ')' insertPart.data with
    | none => .error .missingColumnParens
    | some closeParen =>
      let columnsStr := sliceStr insertPart (openParen + 1) closeParen
      .ok ((splitChar columnsStr ',').map trimStr)

/-- The per-value loop of `ExecPhrase::extract_param_placeholders`
(sql/exec.rs lines 224-235). -/
def placeholdersOfValues : List String → Except Err (List Nat)
  | [] => .ok []
  | value :: rest =>
    let trimmed := trimStr value
    match parseParamPlaceholder trimmed with
    | some idx =>
      match placeholdersOfValues rest with
      | .error e => .error e
      | .ok idxs => .ok (idx :: idxs)
    | none => .error (.malformedValue trimmed)

/-- Model of `ExecPhrase::extract_param_placeholders` (sql/exec.rs lines 212-237). -/
def extractParamPlaceholders (valuesPart : String) : Except Err (List Nat) :=
  match findCharList '(' valuesPart.data with
  | none => .error .missingValuesParens
  | some openParen =>
    match rfindCharList ')' valuesPart.data with
    | none => .error .missingValuesParens
    | some closeParen =>
      let valuesStr := sliceStr valuesPart (openParen + 1) closeParen
      placeholdersOfValues (splitChar valuesStr ',')

/-- The field-building loop of `parse_insert` (sql/exec.rs lines 83-96):
zip columns with placeholder indices, bounds-check, read the parameter. -/
def buildInsertFields (params : List DataType) :
    List (String × Nat) → Except Err (List Field)
  | [] => .ok []
  | (col, idx) :: rest =>
    match params.get? idx with
    | none => .error (.paramOutOfRange (idx + 1) params.length)
    | some v =>
      match buildInsertFields params rest with
      | .error e => .error e
      | .ok fs => .ok (⟨col, v⟩ :: fs)

/-- Model of `ExecPhrase::extract_partition_and_row_keys` (sql/exec.rs lines
288-310): find each key field in order and require a non-null string. -/
def extractKeys (fields : List Field) (queryType : String) :
    Except Err (String × String) :=
  match fields.find? (fun f => f.name == "PartitionKey") with
  | none => .error (.missingKeyField queryType "PartitionKey")
  | some pf =>
    match pf.value with
    | .str (some partition) =>
      match fields.find? (fun f => f.name == "RowKey") with
      | none => .error (.missingKeyField queryType "RowKey")
      | some rf =>
        match rf.value with
        | .str (some row) => .ok (partition, row)
        | _ => .error (.invalidKeyType "RowKey")
    | _ => .error (.invalidKeyType "PartitionKey")

/-- Model of `ExecPhrase::validate_where_clause_simple` (sql/exec.rs lines 313-322). -/
def validateWhereClauseSimple (whereFields : List Field) (queryType : String) :
    Except Err Unit :=
  if 2 < whereFields.length then .error (.unsupportedPredicate queryType)
  else .ok ()

/-- The per-conjunct loop of `parse_where_clause` (sql/exec.rs lines
258-281): a part that is not exactly `column = $N` is skipped silently. -/
def whereFieldsOfParts (params : List DataType) :
    List String → Except Err (List Field)
  | [] => .ok []
  | part :: rest =>
    let eqParts := (splitChar (trimStr part) '=').map trimStr
    match eqParts with
    | [colName, valuePart] =>
      match parseParamPlaceholder valuePart with
      | some idx =>
        match params.get? idx with
        | none => .error (.paramOutOfRange (idx + 1) params.length)
        | some v =>
          match whereFieldsOfParts params rest with
          | .error e => .error e
          | .ok fs => .ok (⟨colName, v⟩ :: fs)
      | none => whereFieldsOfParts params rest
    | _ => whereFieldsOfParts params rest

/-- Model of `ExecPhrase::parse_where_clause` (sql/exec.rs lines 247-285). -/
def parseWhereClause (query queryUpper : String) (params : List DataType) :
    Except Err (List Field) :=
  match findSub queryUpper " WHERE " with
  | none => .ok []
  | some wherePos =>
    let filterStr := trimStr (sliceStr query (wherePos + 7) query.data.length)
    if filterStr = "" then .error .emptyWhere
    else whereFieldsOfParts params (splitOnStr filterStr " AND ")

/-- Model of `ExecPhrase::parse_insert` (sql/exec.rs lines 54-102). -/
def parseInsert (query : String) (params : List DataType) :
    Except Err (List Field × String × String) :=
  let queryUpper := upperStr query
  match findSub queryUpper "VALUES" with
  | none => .error .missingValuesKeyword
  | some valuesPos =>
    match extractColumns (sliceStr query 0 valuesPos) with
    | .error e => .error e
    | .ok columns =>
      match extractParamPlaceholders
          (sliceStr query (valuesPos + 6) query.data.length) with
      | .error e => .error e
      | .ok paramIndices =>
        if columns.length ≠ paramIndices.length then
          .error (.columnValueMismatch columns.length paramIndices.length)
        else
          match buildInsertFields params (columns.zip paramIndices) with
          | .error e => .error e
          | .ok fields =>
            match extractKeys fields "INSERT" with
            | .error e => .error e
            | .ok (partition, row) => .ok (fields, partition, row)

/-- The per-pair loop of the SET clause of `parse_update` (sql/exec.rs lines
122-148). -/
def setFieldsOfPairs (params : List DataType) :
    List String → Except Err (List Field)
  | [] => .ok []
  | pair :: rest =>
    let parts := (splitChar pair '=').map trimStr
    match parts with
    | [colName, valuePart] =>
      match parseParamPlaceholder valuePart with
      | some idx =>
        match params.get? idx with
        | none => .error (.paramOutOfRange (idx + 1) params.length)
        | some v =>
          match setFieldsOfPairs params rest with
          | .error e => .error e
          | .ok fs => .ok (⟨colName, v⟩ :: fs)
      | none => .error .setValueNotPlaceholder
    | _ => .error .malformedSetPair

/-- Model of `ExecPhrase::parse_update` (sql/exec.rs lines 104-168). -/
def parseUpdate (query : String) (params : List DataType) :
    Except Err (List Field × String × String) :=
  let queryUpper := upperStr query
  match findSub queryUpper " SET " with
  | none => .error .missingSetClause
  | some setPos =>
    let setEnd :=
      match findSub queryUpper " WHERE " with
      | some p => p
      | none => query.data.length
    let setPart := trimStr (sliceStr query (setPos + 5) setEnd)
    match setFieldsOfPairs params (splitChar setPart ',') with
    | .error e => .error e
    | .ok fields =>
      if ¬ containsSub queryUpper " WHERE " then
        .error (.missingWhereClause "UPDATE")
      else
        match parseWhereClause query queryUpper params with
        | .error e => .error e
        | .ok whereFields =>
          if whereFields.isEmpty then .error (.emptyWhereFields "UPDATE")
          else
            match validateWhereClauseSimple whereFields "UPDATE" with
            | .error e => .error e
            | .ok _ =>
              match extractKeys whereFields "UPDATE" with
              | .error e => .error e
              | .ok (partition, row) => .ok (fields, partition, row)

/-- Model of `ExecPhrase::parse_delete` (sql/exec.rs lines 170-195). -/
def parseDelete (query : String) (params : List DataType) :
    Except Err (List Field × String × String) :=
  let queryUpper := upperStr query
  if ¬ containsSub queryUpper " WHERE " then
    .error (.missingWhereClause "DELETE")
  else
    match parseWhereClause query queryUpper params with
    | .error e => .error e
    | .ok whereFields =>
      if whereFields.isEmpty then .error (.emptyWhereFields "DELETE")
      else
        match validateWhereClauseSimple whereFields "DELETE" with
        | .error e => .error e
        | .ok _ =>
          match extractKeys whereFields "DELETE" with
          | .error e => .error e
          | .ok (partition, row) => .ok ([], partition, row)

/-- Model of `ExecPhrase::parse` (sql/exec.rs lines 25-52). -/
def ExecPhrase.parse (query : String) (params : List DataType) :
    Except Err ExecPhrase :=
  let queryUpper := upperStr (trimStr query)
  if strStartsWith queryUpper "INSERT" then
    match parseInsert query params with
    | .error e => .error e
    | .ok (entity, partition, row) => .ok ⟨.insert, partition, row, entity⟩
  else if strStartsWith queryUpper "UPDATE" then
    match parseUpdate query params with
    | .error e => .error e
    | .ok (entity, partition, row) => .ok ⟨.update, partition, row, entity⟩
  else if strStartsWith queryUpper "DELETE" then
    match parseDelete query params with
    | .error e => .error e
    | .ok (entity, partition, row) => .ok ⟨.delete, partition, row, entity⟩
  else .error .unsupportedStatement

/-! ## Authenticator (sql.rs: `auth_header`), with HMAC-SHA256.

The `hmac`/`sha2` crates are outside the repository; their functions are
standard and modelled here by a full executable SHA-256 and the RFC 2104
HMAC construction. -/

/-- Truncate to a 32-bit word. -/
def w32 (n : Nat) : Nat := n % 4294967296

/-- Right-rotate a 32-bit word. -/
def rotr32 (k x : Nat) : Nat := w32 ((x >>> k) ||| (x <<< (32 - k)))

/-- Bitwise complement of a 32-bit word. -/
def not32 (x : Nat) : Nat := x ^^^ 4294967295

/-- SHA-256 big sigma 0. -/
def bSig0 (x : Nat) : Nat := rotr32 2 x ^^^ rotr32 13 x ^^^ rotr32 22 x

/-- SHA-256 big sigma 1. -/
def bSig1 (x : Nat) : Nat := rotr32 6 x ^^^ rotr32 11 x ^^^ rotr32 25 x

/-- SHA-256 small sigma 0. -/
def sSig0 (x : Nat) : Nat := rotr32 7 x ^^^ rotr32 18 x ^^^ (x >>> 3)

/-- SHA-256 small sigma 1. -/
def sSig1 (x : Nat) : Nat := rotr32 17 x ^^^ rotr32 19 x ^^^ (x >>> 10)

/-- SHA-256 choose. -/
def chF (x y z : Nat) : Nat := (x &&& y) ^^^ (not32 x &&& z)

/-- SHA-256 majority. -/
def majF (x y z : Nat) : Nat := (x &&& y) ^^^ (x &&& z) ^^^ (y &&& z)

/-- The SHA-256 round constants. -/
def sha256K : List Nat :=
  [1116352408, 1899447441, 3049323471, 3921009573, 961987163,
   1508970993, 2453635748, 2870763221, 3624381080, 310598401,
   607225278, 1426881987, 1925078388, 2162078206, 2614888103,
   3248222580, 3835390401, 4022224774, 264347078, 604807628,
   770255983, 1249150122, 1555081692, 1996064986, 2554220882,
   2821834349, 2952996808, 3210313671, 3336571891, 3584528711,
   113926993, 338241895, 666307205, 773529912, 1294757372,
   1396182291, 1695183700, 1986661051, 2177026350, 2456956037,
   2730485921, 2820302411, 3259730800, 3345764771, 3516065817,
   3600352804, 4094571909, 275423344, 430227734, 506948616,
   659060556, 883997877, 958139571, 1322822218, 1537002063,
   1747873779, 1955562222, 2024104815, 2227730452, 2361852424,
   2428436474, 2756734187, 3204031479, 3329325298]

/-- The SHA-256 initial hash state. -/
def sha256H0 : List Nat :=
  [1779033703, 3144134277, 1013904242, 2773480762,
   1359893119, 2600822924, 528734635, 1541459225]

/-- SHA-256 message padding: append 0x80, zero bytes to 56 mod 64, then the
bit length as eight big-endian bytes. -/
def sha256Pad (msg : List Nat) : List Nat :=
  let len := msg.length
  let zeros := (55 + 64 - len % 64) % 64
  let bitLen := len * 8
  msg ++ [128] ++ List.replicate zeros 0 ++
    [bitLen / 2 ^ 56 % 256, bitLen / 2 ^ 48 % 256, bitLen / 2 ^ 40 % 256,
     bitLen / 2 ^ 32 % 256, bitLen / 2 ^ 24 % 256, bitLen / 2 ^ 16 % 256,
     bitLen / 2 ^ 8 % 256, bitLen % 256]

/-- Group padded bytes into big-endian 32-bit words. -/
def bytesToWords : List Nat → List Nat
  | a :: b :: c :: d :: rest =>
    (a * 2 ^ 24 + b * 2 ^ 16 + c * 2 ^ 8 + d) :: bytesToWords rest
  | _ => []

/-- Split a word list into 16-word blocks (fuel-driven; the word list of a
padded message is finite, so `length` fuel suffices). -/
def wordsToBlocksAux : Nat → List Nat → List (List Nat)
  | _, [] => []
  | 0, _ => []
  | fuel + 1, ws => (ws.take 16) :: wordsToBlocksAux fuel (ws.drop 16)

/-- Split a word list into 16-word blocks. -/
def wordsToBlocks (ws : List Nat) : List (List Nat) :=
  wordsToBlocksAux (ws.length + 1) ws

/-- Extend a reversed schedule prefix by `k` more words. -/
def extendSchedule : Nat → List Nat → List Nat
  | 0, acc => acc
  | k + 1, acc =>
    let w2 := acc.getD 1 0
    let w7 := acc.getD 6 0
    let w15 := acc.getD 14 0
    let w16 := acc.getD 15 0
    extendSchedule k (w32 (sSig1 w2 + w7 + sSig0 w15 + w16) :: acc)

/-- The 64-word message schedule of one block. -/
def sha256Schedule (block : List Nat) : List Nat :=
  (extendSchedule 48 block.reverse).reverse

/-- One SHA-256 round. -/
def sha256Round (st : List Nat) (kw : Nat × Nat) : List Nat :=
  match st with
  | [a, b, c, d, e, f, g, h] =>
    let t1 := w32 (h + bSig1 e + chF e f g + kw.1 + kw.2)
    let t2 := w32 (bSig0 a + majF a b c)
    [w32 (t1 + t2), a, b, c, w32 (d + t1), e, f, g]
  | other => other

/-- Compress one block into the running state. -/
def sha256Compress (st : List Nat) (block : List Nat) : List Nat :=
  let final := ((sha256K.zip (sha256Schedule block)).foldl sha256Round st)
  (st.zip final).map (fun p => w32 (p.1 + p.2))

/-- A 32-bit word as four big-endian bytes. -/
def wordToBytes (w : Nat) : List Nat :=
  [w / 2 ^ 24 % 256, w / 2 ^ 16 % 256, w / 2 ^ 8 % 256, w % 256]

/-- SHA-256 of a byte list, as 32 bytes. -/
def sha256 (msg : List Nat) : List Nat :=
  (((wordsToBlocks (bytesToWords (sha256Pad msg))).foldl sha256Compress
    sha256H0).map wordToBytes).flatten

/-- HMAC-SHA256 (RFC 2104): hash long keys, zero-pad to the 64-byte block,
XOR with the inner/outer pads, nest two hashes. -/
def hmacSha256 (key msg : List Nat) : List Nat :=
  let k0 := if 64 < key.length then sha256 key else key
  let kPad := k0 ++ List.replicate (64 - k0.length) 0
  let ipadKey := kPad.map (fun b => b ^^^ 0x36)
  let opadKey := kPad.map (fun b => b ^^^ 0x5c)
  sha256 (opadKey ++ sha256 (ipadKey ++ msg))

/-- UTF-8 bytes of a string. -/
def strBytes (s : String) : List Nat := s.data.flatMap utf8Bytes

/-- Model of `auth_header` (sql.rs lines 76-90): SharedKey Lite. The HMAC
initialization of the source cannot fail for SHA-256, so base64 decoding of
the account key is the only error. -/
def authHeader (accountName accountKey dateTime resourcePath : String) :
    Except Err String :=
  let stringToSign := dateTime ++ "\n" ++ resourcePath
  match b64Decode accountKey with
  | none => .error .invalidKey
  | some keyBytes =>
    let signature := hmacSha256 keyBytes (strBytes stringToSign)
    let encoded := b64Encode signature
    .ok ("SharedKeyLite " ++ accountName ++ ":" ++ encoded)

/-! ## Helper lemmas -/

/-- Present-value test used by the absent-value clause of claim C1. -/
def isAbsent : DataType → Bool
  | .int32 none | .int64 none | .uint32 none | .uint64 none
  | .float none | .double none | .str none | .boolean none
  | .date none | .time none | .timestamp none | .binary none => true
  | _ => false

/-! ## Claim C5: parameter substitution -/

/-- A single-quote character, written by code point. -/
def singleQuote : String := String.mk [Char.ofNat 39]

/-- Binary test on parameters (the one serialization that fails). -/
def isBinaryParam : DataType → Bool
  | .binary _ => true
  | _ => false

/-- The serialized literal of a non-binary parameter, following the spec
table (claim C5): numerics as bare text, strings single-quoted with embedded
quotes doubled, date/time/timestamp single-quoted, booleans as true/false,
an absent value as NULL. Total; the binary case is unreachable under the
guard and serializes to the empty string. -/
def specLiteral : DataType → String
  | .int32 v => match v with | some n => toString n | none => "NULL"
  | .int64 v => match v with | some n => toString n | none => "NULL"
  | .uint32 v => match v with | some n => toString n | none => "NULL"
  | .uint64 v => match v with | some n => toString n | none => "NULL"
  | .float v => match v with | some x => f32Repr x | none => "NULL"
  | .double v => match v with | some x => f64Repr x | none => "NULL"
  | .str v =>
    match v with
    | some s => singleQuote ++ replaceAll s singleQuote (singleQuote ++ singleQuote) ++ singleQuote
    | none => "NULL"
  | .boolean v => match v with | some b => if b then "true" else "false" | none => "NULL"
  | .date v => match v with | some s => singleQuote ++ s ++ singleQuote | none => "NULL"
  | .time v => match v with | some s => singleQuote ++ s ++ singleQuote | none => "NULL"
  | .timestamp v => match v with | some s => singleQuote ++ s ++ singleQuote | none => "NULL"
  | .binary _ => ""

/-- The spec-shaped substitution (amended claim C5): parameters processed in
order of position, each replacing every occurrence of `$i` in the current
text by its serialized literal. -/
def applySubstFrom (i : Nat) (q : String) : List DataType → String
  | [] => q
  | p :: rest =>
    applySubstFrom (i + 1) (replaceAll q ("$" ++ toString (i + 1)) (specLiteral p)) rest

/-- The spec-shaped substitution starting at position 1. -/
def applySubstSpec (q : String) (ps : List DataType) : String := applySubstFrom 0 q ps

/-! ## Claim C6: OData rendering -/

/-- The spec-shaped rendering (amended claim C6): clauses joined with `&` in
the fixed order select, filter, top; absent components omitted; `$select`
omitted when the list is exactly `*`; the filter operator translation is the
sequential space-surrounded replacement chain, and each component is
percent-encoded. -/
def renderODataSpec (p : QueryPhrases) : String :=
  joinSep "&" (List.filterMap id
    [p.select.bind (fun s => if s = "*" then none else some ("$select=" ++ urlencode s)),
     p.filter.map (fun f => "$filter=" ++ urlencode (odataOpFix f)),
     p.top.map (fun n => "$top=" ++ toString n)])

/-- The whole-token operator substitution the claim asserts (per the spec
wording): map each whitespace token through the operator table. -/
def tokenSubst (t : String) : String :=
  if t = "=" then "eq"
  else if t = "!=" then "ne"
  else if t = "<>" then "ne"
  else if t = ">" then "gt"
  else if t = ">=" then "ge"
  else if t = "<" then "lt"
  else if t = "<=" then "le"
  else if t = "AND" then "and"
  else if t = "OR" then "or"
  else if t = "NOT" then "not"
  else t

/-- Whole-token translation of a filter. -/
def wholeTokenFix (f : String) : String := joinSep " " ((splitWs f).map tokenSubst)

/-! ## Inversion lemmas for the write-statement compiler -/

/-- The WHERE-key pipeline of `parse_update`/`parse_delete` (sql/exec.rs
lines 161-165 and 188-192): validate, then extract the two keys. -/
def whereKeys (flds : List Field) (qt : String) : Except Err (String × String) :=
  match validateWhereClauseSimple flds qt with
  | .error e => .error e
  | .ok _ => extractKeys flds qt

/-! ## Theorems -/

theorem b64DecChar_encChar {n : Nat} (h : n < 64) :
    b64DecChar (b64EncChar n) = some n := by
  revert h
  revert n
  decide

theorem b64EncChar_ne_pad {n : Nat} (h : n < 64) : b64EncChar n ≠ '=' := by
  revert h
  revert n
  decide

theorem b64_decode_encode (bs : List Nat) (h : ∀ b ∈ bs, b < 256) :
    b64DecodeList (b64EncodeList bs) = some bs := by
  induction bs using b64EncodeList.induct with
  | case1 => simp [b64EncodeList, b64DecodeList]
  | case2 a =>
    have ha : a < 256 := h a (by simp)
    have h1 : a / 4 < 64 := by omega
    have h2 : a % 4 * 16 < 64 := by omega
    have e0 : a % 4 * 16 % 16 = 0 := by omega
    simp [b64EncodeList, b64DecodeList, b64DecChar_encChar h1,
      b64DecChar_encChar h2, e0]
    omega
  | case3 a b =>
    have ha : a < 256 := h a (by simp)
    have hb : b < 256 := h b (by simp)
    have h1 : a / 4 < 64 := by omega
    have h2 : a % 4 * 16 + b / 16 < 64 := by omega
    have h3 : b % 16 * 4 < 64 := by omega
    have h4 : b % 16 * 4 % 4 = 0 := by omega
    simp [b64EncodeList, b64DecodeList, b64DecChar_encChar h1,
      b64DecChar_encChar h2, b64DecChar_encChar h3, b64EncChar_ne_pad h3, h4]
    omega
  | case4 a b c rest ih =>
    have ha : a < 256 := h a (by simp)
    have hb : b < 256 := h b (by simp)
    have hc : c < 256 := h c (by simp)
    have h1 : a / 4 < 64 := by omega
    have h2 : a % 4 * 16 + b / 16 < 64 := by omega
    have h3 : b % 16 * 4 + c / 64 < 64 := by omega
    have h4 : c % 64 < 64 := by omega
    have ihr : b64DecodeList (b64EncodeList rest) = some rest := by
      apply ih
      intro x hx
      exact h x (by simp [hx])
    simp [b64EncodeList, b64DecodeList, b64DecChar_encChar h1,
      b64DecChar_encChar h2, b64DecChar_encChar h3, b64DecChar_encChar h4,
      b64EncChar_ne_pad h3, b64EncChar_ne_pad h4, ihr]
    omega

theorem ne_self_append_tag (nm : String) : ¬ (nm = nm ++ "@odata.type") := by
  intro h
  have hl := congrArg String.length h
  rw [String.length_append] at hl
  have : ("@odata.type" : String).length = 11 := rfl
  omega

theorem rowsOfEntries_length (es : List JValue) (rs : List Row)
    (h : rowsOfEntries es = .ok rs) : rs.length = es.length := by
  induction es generalizing rs with
  | nil =>
    simp only [rowsOfEntries] at h
    cases h
    rfl
  | cons e rest ih =>
    simp only [rowsOfEntries] at h
    cases he : entryToRow e with
    | error err => rw [he] at h; cases h
    | ok r =>
      rw [he] at h
      cases hr : rowsOfEntries rest with
      | error err => rw [hr] at h; cases h
      | ok rs2 =>
        rw [hr] at h
        cases h
        simp [ih rs2 hr]

/-- C7 (confirmed): marshalling a present Uint64 field fails with
NumericOverflow exactly when the value exceeds the signed 64-bit maximum,
and otherwise emits the same numeric value (widened to signed 64-bit) with
an Edm.Int64 type tag; likewise through `entity_to_json` on the
single-field entity. -/
theorem uint64_marshal_overflow_iff (nm : String) (n : Nat) :
    (marshalField ⟨nm, .uint64 (some n)⟩ =
      if n ≤ 2 ^ 63 - 1 then
        .ok [(nm, .num (.ofInt n)), (nm ++ "@odata.type", .str "Edm.Int64")]
      else .error (.numericOverflow n))
    ∧ (entityToJson [⟨nm, .uint64 (some n)⟩] =
      if n ≤ 2 ^ 63 - 1 then
        .ok (some [(nm, .num (.ofInt n)), (nm ++ "@odata.type", .str "Edm.Int64")])
      else .error (.numericOverflow n)) := by
  by_cases h : n ≤ 9223372036854775807
  · have hle : n ≤ 2 ^ 63 - 1 := by omega
    have hlt : ¬ (9223372036854775807 < n) := by omega
    constructor
    · simp [marshalField, hlt, hle, h]
    · simp [entityToJson, marshalEntity, marshalField, hlt, hle, h]
  · have hle : ¬ (n ≤ 2 ^ 63 - 1) := by omega
    have hlt : 9223372036854775807 < n := by omega
    constructor
    · simp [marshalField, hlt, hle, h]
    · simp [entityToJson, marshalEntity, marshalField, hlt, hle, h]

/-- C8 (confirmed): the authenticator is a deterministic function of
(account, key, timestamp, path) that fails with InvalidKey exactly when the
key is not decodable base64, and otherwise yields
`SharedKeyLite <account>:<signature>` with the signature the base64 HMAC-SHA256
of `timestamp ++ "\n" ++ path` under the decoded key. -/
theorem auth_header_spec :
    (∀ a k t p, b64Decode k = none → authHeader a k t p = .error .invalidKey)
    ∧ (∀ a k t p kb, b64Decode k = some kb →
        authHeader a k t p =
          .ok ("SharedKeyLite " ++ a ++ ":" ++
            b64Encode (hmacSha256 kb (strBytes (t ++ "\n" ++ p))))) := by
  constructor
  · intro a k t p h
    simp [authHeader, h]
  · intro a k t p kb h
    simp [authHeader, h]

theorem auth_header_spec_witness :
    authHeader "a" "!!" "d" "r" = .error .invalidKey
    ∧ authHeader "a" "AAAA" "d" "r" =
        .ok ("SharedKeyLite " ++ "a" ++ ":" ++
          b64Encode (hmacSha256 [0, 0, 0] (strBytes ("d" ++ "\n" ++ "r")))) :=
  ⟨auth_header_spec.1 "a" "!!" "d" "r" rfl,
   auth_header_spec.2 "a" "AAAA" "d" "r" [0, 0, 0] rfl⟩

/-- C10 (confirmed): a response whose top level has no `value` key holding
an array parses to the empty row list, never an error; and when a `value`
array is present, exactly one row is produced per element. -/
theorem parse_envelope_shape :
    (∀ v : JValue, (jGet v "value").bind jAsArr = none → parseRows v = .ok [])
    ∧ (∀ (v : JValue) (es : List JValue) (rs : List Row),
        (jGet v "value").bind jAsArr = some es → parseRows v = .ok rs →
        rs.length = es.length) := by
  constructor
  · intro v h
    simp [parseRows, h]
  · intro v es rs h hr
    simp only [parseRows, h] at hr
    exact rowsOfEntries_length es rs hr

theorem parse_envelope_shape_witness :
    parseRows JValue.null = .ok [] ∧
    parseRows (JValue.obj [("value", JValue.num (JNumber.ofInt 3))]) = .ok [] :=
  ⟨parse_envelope_shape.1 JValue.null rfl,
   parse_envelope_shape.1 (JValue.obj [("value", JValue.num (JNumber.ofInt 3))]) rfl⟩

theorem readBack_tagged_int64 (nm : String) (m : Int)
    (h1 : -9223372036854775808 ≤ m) (h2 : m < 9223372036854775808) :
    readBack [(nm, .num (.ofInt m)), (nm ++ "@odata.type", .str "Edm.Int64")] nm =
      some (.ok (.int64 (some m))) := by
  have hne := ne_self_append_tag nm
  have ha : -9223372036854775808 ≤ m ∧ m < 9223372036854775808 := ⟨h1, h2⟩
  simp [readBack, jLookup, hne, jAsStr, convert, jAsI64, ha]

/-- C1 (corrected): the wire round-trip (marshal one field with
the per-field insertions of `entity_to_json`, convert it back with the read-path
tag-or-inference conversion) reproduces the value exactly for present
Int32, Int64, Float64, String, Boolean, Timestamp and Binary fields; a
Uint32 or non-overflowing Uint64 comes back as Int64 with the same number,
a Float32 as Float64 with the widened value, and Date and Time as Timestamp
with the same text; an absent (null) value of any variant is omitted from
the wire JSON entirely and therefore does not round-trip. -/
theorem marshal_roundtrip_amended (nm : String) :
    (∀ n : Int, -(2 ^ 31) ≤ n → n < 2 ^ 31 →
      roundTripField ⟨nm, .int32 (some n)⟩ = some (.int32 (some n)))
    ∧ (∀ n : Int, -(2 ^ 63) ≤ n → n < 2 ^ 63 →
      roundTripField ⟨nm, .int64 (some n)⟩ = some (.int64 (some n)))
    ∧ (∀ n : Nat, n < 2 ^ 32 →
      roundTripField ⟨nm, .uint32 (some n)⟩ = some (.int64 (some n)))
    ∧ (∀ n : Nat, n ≤ 2 ^ 63 - 1 →
      roundTripField ⟨nm, .uint64 (some n)⟩ = some (.int64 (some n)))
    ∧ (∀ x : F32,
      roundTripField ⟨nm, .float (some x)⟩ = some (.double (some (f32ToF64 x))))
    ∧ (∀ x : F64,
      roundTripField ⟨nm, .double (some x)⟩ = some (.double (some x)))
    ∧ (∀ s : String,
      roundTripField ⟨nm, .str (some s)⟩ = some (.str (some s)))
    ∧ (∀ b : Bool,
      roundTripField ⟨nm, .boolean (some b)⟩ = some (.boolean (some b)))
    ∧ (∀ s : String,
      roundTripField ⟨nm, .date (some s)⟩ = some (.timestamp (some s)))
    ∧ (∀ s : String,
      roundTripField ⟨nm, .time (some s)⟩ = some (.timestamp (some s)))
    ∧ (∀ s : String,
      roundTripField ⟨nm, .timestamp (some s)⟩ = some (.timestamp (some s)))
    ∧ (∀ bs : List Nat, (∀ b ∈ bs, b < 256) →
      roundTripField ⟨nm, .binary (some bs)⟩ = some (.binary (some bs)))
    ∧ (∀ d : DataType, isAbsent d → marshalField ⟨nm, d⟩ = .ok []) := by
  have hne := ne_self_append_tag nm
  refine ⟨?_, ?_, ?_, ?_, ?_, ?_, ?_, ?_, ?_, ?_, ?_, ?_, ?_⟩
  · intro n h1 h2
    have ha : -9223372036854775808 ≤ n ∧ n < 9223372036854775808 := by
      constructor <;> omega
    have hb : -2147483648 ≤ n ∧ n < 2147483648 := by constructor <;> omega
    simp [roundTripField, marshalField, readBack, jLookup, hne, inferDataType,
      JNumber.isF64, convert, jAsI64, ha, hb]
  · intro n h1 h2
    have ha : -9223372036854775808 ≤ n ∧ n < 9223372036854775808 := by
      constructor <;> omega
    simp [roundTripField, marshalField, readBack, jLookup, hne, convert,
      jAsI64, jAsStr, ha]
  · intro n h
    simp only [roundTripField, marshalField]
    rw [readBack_tagged_int64 nm n (by omega) (by omega)]
  · intro n h
    have hlt : ¬ (2 ^ 63 - 1 < n) := by omega
    simp only [roundTripField, marshalField]
    rw [if_neg hlt]
    simp only [readBack_tagged_int64 nm (n : Int) (by omega) (by omega)]
  · intro x
    simp [roundTripField, marshalField, readBack, jLookup, hne, convert,
      jAsF64, jAsStr]
  · intro x
    simp [roundTripField, marshalField, readBack, jLookup, hne, inferDataType,
      JNumber.isF64, convert, jAsF64]
  · intro s
    simp [roundTripField, marshalField, readBack, jLookup, hne, inferDataType,
      convert, jAsStr]
  · intro b
    simp [roundTripField, marshalField, readBack, jLookup, hne, inferDataType,
      convert, jAsBool]
  · intro s
    simp [roundTripField, marshalField, readBack, jLookup, hne, convert, jAsStr]
  · intro s
    simp [roundTripField, marshalField, readBack, jLookup, hne, convert, jAsStr]
  · intro s
    simp [roundTripField, marshalField, readBack, jLookup, hne, convert, jAsStr]
  · intro bs h
    simp [roundTripField, marshalField, readBack, jLookup, hne, convert, jAsStr,
      b64Decode, b64Encode, b64_decode_encode bs h]
  · intro d hd
    cases d <;> simp_all [isAbsent, marshalField] <;>
      (rename_i v; cases v <;> simp_all [marshalField])

theorem marshal_roundtrip_amended_witness :
    roundTripField ⟨"f", .int32 (some 42)⟩ = some (.int32 (some 42))
    ∧ roundTripField ⟨"f", .uint64 (some 1000)⟩ = some (.int64 (some 1000))
    ∧ roundTripField ⟨"f", .binary (some [72, 105])⟩ = some (.binary (some [72, 105]))
    ∧ marshalField ⟨"f", .str none⟩ = .ok [] :=
  ⟨(marshal_roundtrip_amended "f").1 42 (by decide) (by decide),
   (marshal_roundtrip_amended "f").2.2.2.1 1000 (by decide),
   (marshal_roundtrip_amended "f").2.2.2.2.2.2.2.2.2.2.2.1 [72, 105] (by decide),
   (marshal_roundtrip_amended "f").2.2.2.2.2.2.2.2.2.2.2.2 (.str none) (by decide)⟩

/-- C1 counterexample: a present `Uint32(5)` field marshals to an integer
with an Edm.Int64 tag and unmarshals to `Int64(5)`, not to the original
`Uint32(5)`; the claimed round-trip identity fails for that variant. -/
theorem marshal_roundtrip_uint32_counterexample :
    roundTripField ⟨"f", .uint32 (some 5)⟩ = some (.int64 (some 5))
    ∧ roundTripField ⟨"f", .uint32 (some 5)⟩ ≠ some (.uint32 (some 5)) := by
  constructor
  · rfl
  · intro h
    have h2 : (some (DataType.int64 (some 5)) : Option DataType) =
        some (.uint32 (some 5)) := by
      rw [← h]
      rfl
    cases h2

theorem serializeParam_of_not_binary (p : DataType) (h : isBinaryParam p = false) :
    serializeParam p = .ok (specLiteral p) := by
  cases p with
  | str v => cases v <;> rfl
  | date v => cases v <;> rfl
  | time v => cases v <;> rfl
  | timestamp v => cases v <;> rfl
  | binary v => simp [isBinaryParam] at h
  | int32 v => rfl
  | int64 v => rfl
  | uint32 v => rfl
  | uint64 v => rfl
  | float v => rfl
  | double v => rfl
  | boolean v => rfl

theorem substituteParamsAux_spec (ps : List DataType) :
    ∀ (i : Nat) (q : String),
      substituteParamsAux i q ps =
        if ps.any isBinaryParam then .error .unsupportedParameterType
        else .ok (applySubstFrom i q ps) := by
  induction ps with
  | nil => intro i q; simp [substituteParamsAux, applySubstFrom]
  | cons p rest ih =>
    intro i q
    by_cases hb : isBinaryParam p
    · cases p <;> simp_all [isBinaryParam, substituteParamsAux, serializeParam]
    · have hs := serializeParam_of_not_binary p (by simp_all)
      simp only [substituteParamsAux, hs, List.any_cons, hb, Bool.false_or]
      rw [ih (i + 1)]
      simp [applySubstFrom]

/-- C5 (corrected): substitution processes parameters in order of position,
each step replacing every occurrence of `$i` (as a plain substring, so
`$10`, which contains `$1`, is corrupted by the first step when ten or more
parameters are supplied, and serialized text containing a later `$j` is
substituted again) by the serialized literal of the spec table; any
Binary parameter, used or not, fails UnsupportedParameterType; the spec
own quoting example holds. -/
theorem substitute_params_amended :
    (∀ (q : String) (ps : List DataType),
      substituteParams q ps =
        if ps.any isBinaryParam then .error .unsupportedParameterType
        else .ok (applySubstSpec q ps))
    ∧ substituteParams ("name = $1") [.str (some ("John O" ++ singleQuote ++ "Brien"))] =
        .ok ("name = " ++ singleQuote ++ "John O" ++ singleQuote ++ singleQuote ++
          "Brien" ++ singleQuote) := by
  constructor
  · intro q ps
    exact substituteParamsAux_spec ps 0 q
  · rfl

/-- C5 counterexample: with ten parameters, the literal `$10` is not
replaced by the tenth parameter literal: substituting into `name = $10`
with parameter 1 = Int32(7) and parameter 10 = Str("X") yields `name = 70`
(the `$1` step consumed the prefix of `$10`), not `name = 'X'`. -/
theorem substitute_params_dollar10_counterexample :
    substituteParams "name = $10"
        [.int32 (some 7), .int32 (some 0), .int32 (some 0), .int32 (some 0),
         .int32 (some 0), .int32 (some 0), .int32 (some 0), .int32 (some 0),
         .int32 (some 0), .str (some "X")] = .ok "name = 70"
    ∧ ("name = 70" : String) ≠ "name = " ++ singleQuote ++ "X" ++ singleQuote := by
  constructor
  · rfl
  · decide

/-- C6 (corrected): the rendering equals the spec-shaped composition —
fixed clause order select, filter, top joined by `&`, absent components
omitted, `$select` omitted exactly when a select list is present and is
`*`, each component percent-encoded — with the operator translation being
the source sequential replacement of space-surrounded occurrences, which
agrees with whole-token substitution only for operator tokens strictly
inside the filter text and not adjacent to another operator token. -/
theorem odata_render_amended (p : QueryPhrases) :
    QueryPhrases.odata p = renderODataSpec p := by
  obtain ⟨sel, fil, top⟩ := p
  cases sel with
  | none =>
    cases fil <;> cases top <;> simp [QueryPhrases.odata, renderODataSpec, joinSep]
  | some s =>
    by_cases hs : s = "*" <;>
      cases fil <;> cases top <;>
        simp [QueryPhrases.odata, renderODataSpec, joinSep, hs]

/-- C6 counterexample: for the filter `NOT a` the rendering keeps `NOT`
verbatim (the replacement needs a space on both sides, and this token is at
the start of the filter), while whole-token substitution would produce
`not a`; so the claimed whole-token behavior fails. -/
theorem odata_whole_token_counterexample :
    QueryPhrases.odata ⟨none, some "NOT a", none⟩ = "$filter=NOT%20a"
    ∧ "$filter=" ++ urlencode (wholeTokenFix "NOT a") = "$filter=not%20a"
    ∧ QueryPhrases.odata ⟨none, some "NOT a", none⟩ ≠
        "$filter=" ++ urlencode (wholeTokenFix "NOT a") := by
  refine ⟨by decide, by decide, by decide⟩

theorem parseDelete_ok_inv {q : String} {ps : List DataType}
    {ent : List Field} {p rw : String}
    (h : parseDelete q ps = .ok (ent, p, rw)) :
    ent = [] ∧
    ∃ flds, parseWhereClause q (upperStr q) ps = .ok flds ∧
      flds.isEmpty = false ∧
      validateWhereClauseSimple flds "DELETE" = .ok () ∧
      extractKeys flds "DELETE" = .ok (p, rw) := by
  unfold parseDelete at h
  dsimp only at h
  split at h
  · cases h
  · cases hwc : parseWhereClause q (upperStr q) ps with
    | error e => simp only [hwc] at h; cases h
    | ok flds =>
      simp only [hwc] at h
      by_cases hemp : flds.isEmpty
      · rw [if_pos hemp] at h; cases h
      · rw [if_neg hemp] at h
        cases hv : validateWhereClauseSimple flds "DELETE" with
        | error e => simp only [hv] at h; cases h
        | ok u =>
          simp only [hv] at h
          cases hk : extractKeys flds "DELETE" with
          | error e => simp only [hk] at h; cases h
          | ok pr =>
            obtain ⟨p2, r2⟩ := pr
            simp only [hk] at h
            cases h
            refine ⟨rfl, flds, rfl, by simpa using hemp, ?_, hk⟩
            cases u
            exact hv

theorem parseUpdate_ok_inv {q : String} {ps : List DataType}
    {ent : List Field} {p rw : String}
    (h : parseUpdate q ps = .ok (ent, p, rw)) :
    (∃ setPairs, setFieldsOfPairs ps setPairs = .ok ent) ∧
    ∃ flds, parseWhereClause q (upperStr q) ps = .ok flds ∧
      flds.isEmpty = false ∧
      validateWhereClauseSimple flds "UPDATE" = .ok () ∧
      extractKeys flds "UPDATE" = .ok (p, rw) := by
  unfold parseUpdate at h
  dsimp only at h
  split at h
  · cases h
  · rename_i setPos hset
    split at h
    · cases h
    · rename_i fields hsf
      split at h
      · cases h
      · cases hwc : parseWhereClause q (upperStr q) ps with
        | error e => simp only [hwc] at h; cases h
        | ok flds =>
          simp only [hwc] at h
          by_cases hemp : flds.isEmpty
          · rw [if_pos hemp] at h; cases h
          · rw [if_neg hemp] at h
            cases hv : validateWhereClauseSimple flds "UPDATE" with
            | error e => simp only [hv] at h; cases h
            | ok u =>
              simp only [hv] at h
              cases hk : extractKeys flds "UPDATE" with
              | error e => simp only [hk] at h; cases h
              | ok pr =>
                obtain ⟨p2, r2⟩ := pr
                simp only [hk] at h
                cases h
                refine ⟨⟨_, hsf⟩, flds, rfl, by simpa using hemp, ?_, hk⟩
                cases u
                exact hv

theorem parseInsert_ok_inv {q : String} {ps : List DataType}
    {ent : List Field} {p rw : String}
    (h : parseInsert q ps = .ok (ent, p, rw)) :
    (∃ pairs, buildInsertFields ps pairs = .ok ent) ∧
    extractKeys ent "INSERT" = .ok (p, rw) := by
  unfold parseInsert at h
  dsimp only at h
  split at h
  · cases h
  · rename_i valuesPos hvp
    split at h
    · cases h
    · rename_i columns hcols
      split at h
      · cases h
      · rename_i paramIndices hpi
        split at h
        · cases h
        · cases hbf : buildInsertFields ps (columns.zip paramIndices) with
          | error e => simp only [hbf] at h; cases h
          | ok fields =>
            simp only [hbf] at h
            cases hk : extractKeys fields "INSERT" with
            | error e => simp only [hk] at h; cases h
            | ok pr =>
              obtain ⟨p2, r2⟩ := pr
              simp only [hk] at h
              cases h
              exact ⟨⟨_, hbf⟩, hk⟩

theorem execParse_ok_inv {q : String} {ps : List DataType} {r : ExecPhrase}
    (h : ExecPhrase.parse q ps = .ok r) :
    (r.action = .insert ∧ parseInsert q ps = .ok (r.entity, r.partition, r.row))
    ∨ (r.action = .update ∧ parseUpdate q ps = .ok (r.entity, r.partition, r.row))
    ∨ (r.action = .delete ∧ parseDelete q ps = .ok (r.entity, r.partition, r.row)) := by
  unfold ExecPhrase.parse at h
  dsimp only at h
  split at h
  · cases hi : parseInsert q ps with
    | error e => simp only [hi] at h; cases h
    | ok t =>
      obtain ⟨ent, p, rw⟩ := t
      simp only [hi] at h
      cases h
      exact Or.inl ⟨rfl, rfl⟩
  · split at h
    · cases hu : parseUpdate q ps with
      | error e => simp only [hu] at h; cases h
      | ok t =>
        obtain ⟨ent, p, rw⟩ := t
        simp only [hu] at h
        cases h
        exact Or.inr (Or.inl ⟨rfl, rfl⟩)
    · split at h
      · cases hd : parseDelete q ps with
        | error e => simp only [hd] at h; cases h
        | ok t =>
          obtain ⟨ent, p, rw⟩ := t
          simp only [hd] at h
          cases h
          exact Or.inr (Or.inr ⟨rfl, rfl⟩)
      · cases h

theorem extractKeys_ok_inv {flds : List Field} {qt p rw : String}
    (h : extractKeys flds qt = .ok (p, rw)) :
    (∃ pf, flds.find? (fun f => f.name == "PartitionKey") = some pf
      ∧ pf.value = .str (some p))
    ∧ (∃ rf, flds.find? (fun f => f.name == "RowKey") = some rf
      ∧ rf.value = .str (some rw)) := by
  unfold extractKeys at h
  cases hp : flds.find? (fun f => f.name == "PartitionKey") with
  | none => simp only [hp] at h; cases h
  | some pf =>
    simp only [hp] at h
    cases hpv : pf.value with
    | str v =>
      cases v with
      | none => simp only [hpv] at h; cases h
      | some pv =>
        simp only [hpv] at h
        cases hr : flds.find? (fun f => f.name == "RowKey") with
        | none => simp only [hr] at h; cases h
        | some rf =>
          simp only [hr] at h
          cases hrv : rf.value with
          | str w =>
            cases w with
            | none => simp only [hrv] at h; cases h
            | some rv =>
              simp only [hrv] at h
              cases h
              exact ⟨⟨pf, rfl, hpv⟩, ⟨rf, rfl, hrv⟩⟩
          | int32 v => simp only [hrv] at h; cases h
          | int64 v => simp only [hrv] at h; cases h
          | uint32 v => simp only [hrv] at h; cases h
          | uint64 v => simp only [hrv] at h; cases h
          | float v => simp only [hrv] at h; cases h
          | double v => simp only [hrv] at h; cases h
          | boolean v => simp only [hrv] at h; cases h
          | date v => simp only [hrv] at h; cases h
          | time v => simp only [hrv] at h; cases h
          | timestamp v => simp only [hrv] at h; cases h
          | binary v => simp only [hrv] at h; cases h
    | int32 v => simp only [hpv] at h; cases h
    | int64 v => simp only [hpv] at h; cases h
    | uint32 v => simp only [hpv] at h; cases h
    | uint64 v => simp only [hpv] at h; cases h
    | float v => simp only [hpv] at h; cases h
    | double v => simp only [hpv] at h; cases h
    | boolean v => simp only [hpv] at h; cases h
    | date v => simp only [hpv] at h; cases h
    | time v => simp only [hpv] at h; cases h
    | timestamp v => simp only [hpv] at h; cases h
    | binary v => simp only [hpv] at h; cases h

theorem two_le_length_of_mem_ne {α : Type} {a b : α} {l : List α}
    (ha : a ∈ l) (hb : b ∈ l) (hne : a ≠ b) : 2 ≤ l.length := by
  match l with
  | [] => cases ha
  | [x] =>
    rw [List.mem_singleton] at ha hb
    exact absurd (ha.trans hb.symm) hne
  | x :: y :: t => simp

theorem buildInsertFields_mem {ps : List DataType} {pairs : List (String × Nat)}
    {ent : List Field} (h : buildInsertFields ps pairs = .ok ent) :
    ∀ f ∈ ent, f.value ∈ ps := by
  induction pairs generalizing ent with
  | nil =>
    simp only [buildInsertFields] at h
    cases h
    simp
  | cons ci rest ih =>
    obtain ⟨c, i⟩ := ci
    simp only [buildInsertFields] at h
    cases hg : ps.get? i with
    | none => simp only [hg] at h; cases h
    | some v =>
      simp only [hg] at h
      cases hb : buildInsertFields ps rest with
      | error e => simp only [hb] at h; cases h
      | ok fs =>
        simp only [hb] at h
        cases h
        intro f hf
        rcases List.mem_cons.mp hf with hf | hf
        · subst hf
          exact List.get?_mem hg
        · exact ih hb f hf

theorem setFieldsOfPairs_mem {ps : List DataType} {pairs : List String}
    {ent : List Field} (h : setFieldsOfPairs ps pairs = .ok ent) :
    ∀ f ∈ ent, f.value ∈ ps := by
  induction pairs generalizing ent with
  | nil =>
    simp only [setFieldsOfPairs] at h
    cases h
    simp
  | cons pair rest ih =>
    simp only [setFieldsOfPairs] at h
    split at h
    · rename_i colName valuePart heq
      split at h
      · rename_i idx hidx
        cases hg : ps.get? idx with
        | none => simp only [hg] at h; cases h
        | some v =>
          simp only [hg] at h
          cases hb : setFieldsOfPairs ps rest with
          | error e => simp only [hb] at h; cases h
          | ok fs =>
            simp only [hb] at h
            cases h
            intro f hf
            rcases List.mem_cons.mp hf with hf | hf
            · subst hf
              exact List.get?_mem hg
            · exact ih hb f hf
      · cases h
    · cases h

theorem whereFieldsOfParts_mem {ps : List DataType} {parts : List String}
    {flds : List Field} (h : whereFieldsOfParts ps parts = .ok flds) :
    ∀ f ∈ flds, f.value ∈ ps := by
  induction parts generalizing flds with
  | nil =>
    simp only [whereFieldsOfParts] at h
    cases h
    simp
  | cons part rest ih =>
    simp only [whereFieldsOfParts] at h
    split at h
    · rename_i colName valuePart heq
      split at h
      · rename_i idx hidx
        cases hg : ps.get? idx with
        | none => simp only [hg] at h; cases h
        | some v =>
          simp only [hg] at h
          cases hb : whereFieldsOfParts ps rest with
          | error e => simp only [hb] at h; cases h
          | ok fs =>
            simp only [hb] at h
            cases h
            intro f hf
            rcases List.mem_cons.mp hf with hf | hf
            · subst hf
              exact List.get?_mem hg
            · exact ih hb f hf
      · exact ih h
    · exact ih h

theorem parseWhereClause_mem {q qU : String} {ps : List DataType}
    {flds : List Field} (h : parseWhereClause q qU ps = .ok flds) :
    ∀ f ∈ flds, f.value ∈ ps := by
  unfold parseWhereClause at h
  split at h
  · cases h
    simp
  · dsimp only at h
    split at h
    · cases h
    · exact whereFieldsOfParts_mem h

/-- C2 (corrected): every accepted write statement carries PartitionKey and
RowKey separately, each obtained from a field of the key source of the statement
(the parsed column/value fields for INSERT, the parsed WHERE equalities for
UPDATE and DELETE) whose value is a non-null string; the DELETE entityFields
are empty; but the keys are NOT excluded from entityFields: the INSERT entityFields are the full column list, keys included, and the UPDATE ones are the
SET pairs. -/
theorem write_statement_keys_amended :
    ∀ (q : String) (ps : List DataType) (r : ExecPhrase),
      ExecPhrase.parse q ps = .ok r →
      (r.action = .delete → r.entity = [])
      ∧ ∃ flds,
          ((r.action = .insert ∧ flds = r.entity)
            ∨ ((r.action = .update ∨ r.action = .delete)
                ∧ parseWhereClause q (upperStr q) ps = .ok flds))
          ∧ (∃ pf, flds.find? (fun f => f.name == "PartitionKey") = some pf
              ∧ pf.value = .str (some r.partition))
          ∧ (∃ rf, flds.find? (fun f => f.name == "RowKey") = some rf
              ∧ rf.value = .str (some r.row)) := by
  intro q ps r h
  rcases execParse_ok_inv h with ⟨ha, hi⟩ | ⟨ha, hu⟩ | ⟨ha, hd⟩
  · rcases parseInsert_ok_inv hi with ⟨_, hk⟩
    rcases extractKeys_ok_inv hk with ⟨hpf, hrf⟩
    refine ⟨fun hdel => ?_, r.entity, Or.inl ⟨ha, rfl⟩, hpf, hrf⟩
    rw [ha] at hdel
    cases hdel
  · rcases parseUpdate_ok_inv hu with ⟨_, flds, hwc, _, _, hk⟩
    rcases extractKeys_ok_inv hk with ⟨hpf, hrf⟩
    refine ⟨fun hdel => ?_, flds, Or.inr ⟨Or.inl ha, hwc⟩, hpf, hrf⟩
    rw [ha] at hdel
    cases hdel
  · rcases parseDelete_ok_inv hd with ⟨hent, flds, hwc, _, _, hk⟩
    rcases extractKeys_ok_inv hk with ⟨hpf, hrf⟩
    exact ⟨fun _ => hent, flds, Or.inr ⟨Or.inr ha, hwc⟩, hpf, hrf⟩

theorem write_statement_keys_amended_witness :
    (ExecAction.delete = ExecAction.delete →
      (ExecPhrase.mk .delete "p" "r" []).entity = [])
    ∧ ∃ flds,
        ((ExecAction.delete = ExecAction.insert ∧ flds = ([] : List Field))
          ∨ ((ExecAction.delete = ExecAction.update ∨ ExecAction.delete = ExecAction.delete)
              ∧ parseWhereClause "DELETE FROM t WHERE PartitionKey = $1 AND RowKey = $2"
                  (upperStr "DELETE FROM t WHERE PartitionKey = $1 AND RowKey = $2")
                  [.str (some "p"), .str (some "r")] = .ok flds))
        ∧ (∃ pf, flds.find? (fun f => f.name == "PartitionKey") = some pf
            ∧ pf.value = .str (some "p"))
        ∧ (∃ rf, flds.find? (fun f => f.name == "RowKey") = some rf
            ∧ rf.value = .str (some "r")) :=
  write_statement_keys_amended
    "DELETE FROM t WHERE PartitionKey = $1 AND RowKey = $2"
    [.str (some "p"), .str (some "r")] ⟨.delete, "p", "r", []⟩ rfl

/-- C2 counterexample: a compiled INSERT keeps the key fields inside
entityFields — the field list of the accepted statement names PartitionKey
and RowKey — contradicting the claimed exclusion. -/
theorem write_statement_keys_insert_counterexample :
    ExecPhrase.parse "INSERT INTO t (PartitionKey, RowKey, Name) VALUES ($1, $2, $3)"
        [.str (some "p"), .str (some "r"), .str (some "A")] =
      .ok ⟨.insert, "p", "r",
        [⟨"PartitionKey", .str (some "p")⟩, ⟨"RowKey", .str (some "r")⟩,
         ⟨"Name", .str (some "A")⟩]⟩
    ∧ (([⟨"PartitionKey", .str (some "p")⟩, ⟨"RowKey", .str (some "r")⟩,
         ⟨"Name", .str (some "A")⟩] : List Field).map Field.name).contains
        "PartitionKey" = true := by
  constructor
  · rfl
  · rfl

/-- C3 (corrected): for UPDATE and DELETE, only AND-separated conjuncts of
the exact shape `column = $N` are parsed as predicates — any other conjunct
is silently ignored rather than rejected; compilation succeeds exactly when
the parsed placeholder equalities are one PartitionKey and one RowKey
equality (both non-null strings): more than two parsed equalities fail
UnsupportedPredicate (checked before the key lookup), and with at most two,
a missing PartitionKey equality fails MissingKeyField for PartitionKey, a
missing RowKey equality (PartitionKey present as a non-null string) fails
MissingKeyField for RowKey. -/
theorem where_clause_exact_keys_amended :
    (∀ (flds : List Field) (qt : String), 2 < flds.length →
      whereKeys flds qt = .error (.unsupportedPredicate qt))
    ∧ (∀ (flds : List Field) (qt : String), flds.length ≤ 2 →
        flds.find? (fun f => f.name == "PartitionKey") = none →
        whereKeys flds qt = .error (.missingKeyField qt "PartitionKey"))
    ∧ (∀ (flds : List Field) (qt : String) (pf : Field) (p : String),
        flds.length ≤ 2 →
        flds.find? (fun f => f.name == "PartitionKey") = some pf →
        pf.value = .str (some p) →
        flds.find? (fun f => f.name == "RowKey") = none →
        whereKeys flds qt = .error (.missingKeyField qt "RowKey"))
    ∧ (∀ (q : String) (ps : List DataType) (r : ExecPhrase),
        ExecPhrase.parse q ps = .ok r →
        (r.action = .update ∨ r.action = .delete) →
        ∃ flds, parseWhereClause q (upperStr q) ps = .ok flds
          ∧ flds.length = 2
          ∧ (∃ pf, flds.find? (fun f => f.name == "PartitionKey") = some pf
              ∧ pf.value = .str (some r.partition))
          ∧ (∃ rf, flds.find? (fun f => f.name == "RowKey") = some rf
              ∧ rf.value = .str (some r.row))) := by
  refine ⟨?_, ?_, ?_, ?_⟩
  · intro flds qt hl
    simp [whereKeys, validateWhereClauseSimple, hl]
  · intro flds qt hl hn
    have hv : validateWhereClauseSimple flds qt = .ok () := by
      simp [validateWhereClauseSimple]
      omega
    simp [whereKeys, hv, extractKeys, hn]
  · intro flds qt pf p hl hp hpv hr
    have hv : validateWhereClauseSimple flds qt = .ok () := by
      simp [validateWhereClauseSimple]
      omega
    simp [whereKeys, hv, extractKeys, hp, hpv, hr]
  · intro q ps r h hud
    have hkey : ∃ flds, parseWhereClause q (upperStr q) ps = .ok flds
        ∧ validateWhereClauseSimple flds (if r.action = .update then "UPDATE" else "DELETE") = .ok ()
        ∧ extractKeys flds (if r.action = .update then "UPDATE" else "DELETE") =
            .ok (r.partition, r.row) := by
      rcases execParse_ok_inv h with ⟨ha, hi⟩ | ⟨ha, hu⟩ | ⟨ha, hd⟩
      · rcases hud with hx | hx <;> rw [ha] at hx <;> cases hx
      · rcases parseUpdate_ok_inv hu with ⟨_, flds, hwc, _, hv, hk⟩
        exact ⟨flds, hwc, by simp [ha, hv], by simp [ha, hk]⟩
      · rcases parseDelete_ok_inv hd with ⟨_, flds, hwc, _, hv, hk⟩
        exact ⟨flds, hwc, by simp [ha, hv], by simp [ha, hk]⟩
    rcases hkey with ⟨flds, hwc, hv, hk⟩
    rcases extractKeys_ok_inv hk with ⟨⟨pf, hp, hpv⟩, ⟨rf, hr, hrv⟩⟩
    refine ⟨flds, hwc, ?_, ⟨pf, hp, hpv⟩, ⟨rf, hr, hrv⟩⟩
    have hle : flds.length ≤ 2 := by
      by_contra hgt
      simp only [validateWhereClauseSimple, if_pos (by omega : 2 < flds.length)] at hv
      cases hv
    have hpn : pf.name = "PartitionKey" := by
      have := List.find?_some hp
      simpa using this
    have hrn : rf.name = "RowKey" := by
      have := List.find?_some hr
      simpa using this
    have hne : pf ≠ rf := by
      intro he
      rw [he, hrn] at hpn
      exact absurd hpn (by decide)
    have h2 : 2 ≤ flds.length :=
      two_le_length_of_mem_ne (List.mem_of_find?_eq_some hp)
        (List.mem_of_find?_eq_some hr) hne
    omega

theorem where_clause_exact_keys_amended_witness :
    ∃ flds, parseWhereClause "DELETE FROM t WHERE PartitionKey = $1 AND RowKey = $2"
        (upperStr "DELETE FROM t WHERE PartitionKey = $1 AND RowKey = $2")
        [.str (some "p"), .str (some "r")] = .ok flds
      ∧ flds.length = 2
      ∧ (∃ pf, flds.find? (fun f => f.name == "PartitionKey") = some pf
          ∧ pf.value = .str (some "p"))
      ∧ (∃ rf, flds.find? (fun f => f.name == "RowKey") = some rf
          ∧ rf.value = .str (some "r")) :=
  (where_clause_exact_keys_amended.2.2.2)
    "DELETE FROM t WHERE PartitionKey = $1 AND RowKey = $2"
    [.str (some "p"), .str (some "r")] ⟨.delete, "p", "r", []⟩ rfl (Or.inr rfl)

/-- C3 counterexample: a DELETE whose WHERE clause carries a third,
non-equality predicate (`Age > $3`) compiles successfully — the conjunct is
skipped, not rejected with UnsupportedPredicate as claimed. -/
theorem where_clause_extra_predicate_counterexample :
    ExecPhrase.parse "DELETE FROM t WHERE PartitionKey = $1 AND RowKey = $2 AND Age > $3"
        [.str (some "p"), .str (some "r"), .int32 (some 30)] =
      .ok ⟨.delete, "p", "r", []⟩
    ∧ ∀ e : Err,
        ExecPhrase.parse "DELETE FROM t WHERE PartitionKey = $1 AND RowKey = $2 AND Age > $3"
          [.str (some "p"), .str (some "r"), .int32 (some 30)] ≠ .error e := by
  refine ⟨rfl, ?_⟩
  intro e he
  rw [show ExecPhrase.parse "DELETE FROM t WHERE PartitionKey = $1 AND RowKey = $2 AND Age > $3"
      [.str (some "p"), .str (some "r"), .int32 (some 30)] =
      .ok ⟨.delete, "p", "r", []⟩ from rfl] at he
  cases he

/-- C9 (corrected): a token is treated as a parameter reference only when it
is `$` followed by text parsing as a positive integer (`$0` maps to no
index via the checked subtraction), and every accepted placeholder is
bounds-checked against the parameter count before the parameter is read, so
list access is always in bounds: every entity or WHERE field value of an
accepted statement is one of the supplied parameters. In INSERT value lists
and UPDATE SET clauses a non-placeholder token is rejected as malformed,
but in a WHERE clause the whole conjunct is silently ignored instead. -/
theorem placeholder_bounds_amended :
    (∀ (s : String) (idx : Nat), parseParamPlaceholder s = some idx →
      ∃ numList : List Char, s.data = Char.ofNat 36 :: numList
        ∧ parseUsize (String.mk numList) = some (idx + 1))
    ∧ parseParamPlaceholder "$0" = none
    ∧ placeholdersOfValues ["$0"] = .error (.malformedValue "$0")
    ∧ setFieldsOfPairs [] ["a = $0"] = .error .setValueNotPlaceholder
    ∧ (∀ (q : String) (ps : List DataType) (r : ExecPhrase),
        ExecPhrase.parse q ps = .ok r → ∀ f ∈ r.entity, f.value ∈ ps)
    ∧ (∀ (q qU : String) (ps : List DataType) (flds : List Field),
        parseWhereClause q qU ps = .ok flds → ∀ f ∈ flds, f.value ∈ ps) := by
  refine ⟨?_, rfl, rfl, rfl, ?_, ?_⟩
  · intro s idx h
    unfold parseParamPlaceholder at h
    split at h
    · rename_i numStr hdata
      cases hp : parseUsize (String.mk numStr) with
      | none => simp only [hp] at h; cases h
      | some n =>
        simp only [hp] at h
        by_cases hz : n = 0
        · rw [if_pos hz] at h; cases h
        · rw [if_neg hz] at h
          cases h
          refine ⟨numStr, ?_, ?_⟩
          · exact hdata
          · rw [hp]
            congr 1
            omega
    · cases h
  · intro q ps r h f hf
    rcases execParse_ok_inv h with ⟨ha, hi⟩ | ⟨ha, hu⟩ | ⟨ha, hd⟩
    · rcases parseInsert_ok_inv hi with ⟨⟨pairs, hbf⟩, _⟩
      exact buildInsertFields_mem hbf f hf
    · rcases parseUpdate_ok_inv hu with ⟨⟨setPairs, hsf⟩, _⟩
      exact setFieldsOfPairs_mem hsf f hf
    · rcases parseDelete_ok_inv hd with ⟨hent, _⟩
      rw [hent] at hf
      cases hf
  · intro q qU ps flds h
    exact parseWhereClause_mem h

theorem placeholder_bounds_amended_witness :
    ∀ f ∈ ([⟨"PartitionKey", .str (some "p")⟩, ⟨"RowKey", .str (some "r")⟩,
        ⟨"Name", .str (some "A")⟩] : List Field),
      f.value ∈ [DataType.str (some "p"), .str (some "r"), .str (some "A")] :=
  placeholder_bounds_amended.2.2.2.2.1
    "INSERT INTO t (PartitionKey, RowKey, Name) VALUES ($1, $2, $3)"
    [.str (some "p"), .str (some "r"), .str (some "A")]
    ⟨.insert, "p", "r",
      [⟨"PartitionKey", .str (some "p")⟩, ⟨"RowKey", .str (some "r")⟩,
       ⟨"Name", .str (some "A")⟩]⟩ rfl

/-- C9 counterexample: a `$0` placeholder in a WHERE clause is not rejected
as malformed — the conjunct is silently skipped, and the statement instead
fails with MissingKeyField for PartitionKey. -/
theorem placeholder_where_skip_counterexample :
    ExecPhrase.parse "DELETE FROM t WHERE PartitionKey = $0 AND RowKey = $1"
        [.str (some "r")] = .error (.missingKeyField "DELETE" "PartitionKey")
    ∧ Err.missingKeyField "DELETE" "PartitionKey" ≠ .malformedValue "$0"
    ∧ Err.missingKeyField "DELETE" "PartitionKey" ≠ .setValueNotPlaceholder
    ∧ ∀ i t : Nat, Err.missingKeyField "DELETE" "PartitionKey" ≠ .paramOutOfRange i t := by
  refine ⟨rfl, by decide, by decide, ?_⟩
  intro i t h
  cases h

theorem mem_of_mem_dropWhile {α : Type} (p : α → Bool) (l : List α) {a : α}
    (h : a ∈ l.dropWhile p) : a ∈ l := by
  induction l with
  | nil => cases h
  | cons x rest ih =>
    rw [List.dropWhile_cons] at h
    by_cases hp : p x
    · simp only [hp, if_true] at h
      exact List.mem_cons_of_mem _ (ih h)
    · simp only [hp, if_false] at h
      exact h

theorem scanTokens_no_select (fuel : Nat) :
    ∀ (toks : List String) (sel fil : Option String) (top : Option Nat),
      (∀ t ∈ toks, upperStr t ≠ "SELECT") →
      ∃ sel2 fil2, scanTokens fuel toks sel fil top = .ok (sel2, fil2, top) := by
  induction fuel with
  | zero =>
    intro toks sel fil top h
    cases toks <;> exact ⟨sel, fil, rfl⟩
  | succ fuel ih =>
    intro toks sel fil top h
    cases toks with
    | nil => exact ⟨sel, fil, rfl⟩
    | cons tok rest =>
      have htok : ¬ (upperStr tok = "SELECT") := h tok (by simp)
      simp only [scanTokens]
      rw [if_neg htok]
      by_cases hfrom : upperStr tok = "FROM"
      · rw [if_pos hfrom]
        cases rest with
        | nil => exact ⟨sel, fil, rfl⟩
        | cons t2 r2 =>
          exact ih r2 sel fil top (fun t ht => h t (by simp [ht]))
      · rw [if_neg hfrom]
        by_cases hwhere : upperStr tok = "WHERE"
        · rw [if_pos hwhere]
          refine ih _ _ _ top ?_
          intro t ht
          exact h t (List.mem_cons_of_mem _ (mem_of_mem_dropWhile _ _ ht))
        · rw [if_neg hwhere]
          exact ih rest sel fil top (fun t ht => h t (List.mem_cons_of_mem _ ht))

/-- C4 (corrected): when the token after SELECT is TOP (case-insensitively)
and a following token exists, that token must parse as an unsigned 32-bit
integer — the compiler fails (MalformedQuery) otherwise, and on success
records it as the row limit; but when TOP is the last token of the query,
no error is raised: the scan simply ends with no limit (and no select list)
recorded. -/
theorem top_token_amended :
    ∀ (q : String) (ps : List DataType) (proc t1 t2 : String) (rest : List String),
      containsSub (upperStr q) "JOIN" = false →
      containsSub (upperStr q) "ORDER BY" = false →
      substituteParams q ps = .ok proc →
      splitWs proc = t1 :: t2 :: rest →
      upperStr t1 = "SELECT" → upperStr t2 = "TOP" →
      (rest = [] → QueryPhrases.query q ps = .ok ⟨none, none, none⟩)
      ∧ (∀ (numTok : String) (rest2 : List String), rest = numTok :: rest2 →
          (parseU32 numTok = none →
            QueryPhrases.query q ps = .error (.malformedTop numTok))
          ∧ (∀ n : Nat, parseU32 numTok = some n →
              (∀ t ∈ rest2, upperStr t ≠ "SELECT") →
              ∃ r, QueryPhrases.query q ps = .ok r ∧ r.top = some n)) := by
  intro q ps proc t1 t2 rest hj ho hsub hsplit hsel htop
  have hq : ∀ (sel fil : Option String) (top : Option Nat),
      scanTokens ((splitWs proc).length + 1) (splitWs proc) none none none =
        .ok (sel, fil, top) →
      QueryPhrases.query q ps = .ok ⟨sel, fil, top⟩ := by
    intro sel fil top hout
    unfold QueryPhrases.query
    dsimp only
    rw [hj, ho, hsub]
    dsimp only
    rw [hout]
    rfl
  have hqe : ∀ e : Err,
      scanTokens ((splitWs proc).length + 1) (splitWs proc) none none none =
        .error e →
      QueryPhrases.query q ps = .error e := by
    intro e hout
    unfold QueryPhrases.query
    dsimp only
    rw [hj, ho, hsub]
    dsimp only
    rw [hout]
    rfl
  constructor
  · intro hrest
    subst hrest
    refine hq _ _ _ ?_
    rw [hsplit]
    simp only [scanTokens, List.length_cons]
    rw [if_pos hsel, if_pos htop]
  · intro numTok rest2 hrest
    subst hrest
    constructor
    · intro hnone
      refine hqe _ ?_
      rw [hsplit]
      simp only [scanTokens, List.length_cons]
      rw [if_pos hsel, if_pos htop]
      simp only [hnone]
    · intro n hsome hns
      have hscan := scanTokens_no_select (rest2.length + 1 + 1 + 1)
        (rest2.dropWhile (fun t => upperStr t ≠ "FROM"))
        (if (rest2.takeWhile (fun t => upperStr t ≠ "FROM")).isEmpty then none
          else some (trimEndCommas (joinSep " " (rest2.takeWhile (fun t => upperStr t ≠ "FROM")))))
        none (some n)
        (fun t ht => hns t (mem_of_mem_dropWhile _ _ ht))
      rcases hscan with ⟨sel2, fil2, hscan⟩
      refine ⟨⟨sel2, fil2, some n⟩, ?_, rfl⟩
      refine hq _ _ _ ?_
      rw [hsplit]
      simp only [scanTokens, List.length_cons]
      rw [if_pos hsel, if_pos htop]
      simp only [hsome]
      exact hscan

theorem top_token_amended_witness :
    QueryPhrases.query "SELECT TOP x FROM t" [] = .error (.malformedTop "x")
    ∧ ∃ r, QueryPhrases.query "SELECT TOP 5 name FROM t" [] = .ok r
        ∧ r.top = some 5 := by
  constructor
  · exact ((top_token_amended "SELECT TOP x FROM t" [] "SELECT TOP x FROM t"
      "SELECT" "TOP" ["x", "FROM", "t"] rfl rfl rfl rfl rfl rfl).2
        "x" ["FROM", "t"] rfl).1 rfl
  · exact ((top_token_amended "SELECT TOP 5 name FROM t" [] "SELECT TOP 5 name FROM t"
      "SELECT" "TOP" ["5", "name", "FROM", "t"] rfl rfl rfl rfl rfl rfl).2
        "5" ["name", "FROM", "t"] rfl).2 5 rfl (by decide)

/-- C4 counterexample: a query ending at the TOP token (`SELECT TOP`)
compiles successfully with no limit recorded, instead of failing with
MalformedQuery as claimed for a missing count token. -/
theorem top_missing_number_counterexample :
    QueryPhrases.query "SELECT TOP" [] = .ok ⟨none, none, none⟩
    ∧ ∀ e : Err, QueryPhrases.query "SELECT TOP" [] ≠ .error e := by
  refine ⟨rfl, ?_⟩
  intro e he
  rw [show QueryPhrases.query "SELECT TOP" [] = .ok ⟨none, none, none⟩ from rfl] at he
  cases he

end AzTable
